import Mathlib

/-!
Verification development for the QCoin-Node peer-to-peer client core:
the Pool Manager (src/Peer2peer/client/ClientManager.py), the client
connect/send/receive/reconnect state machine
(src/Peer2peer/client/Client.py), and the newline-delimited JSON-RPC
framing used by the demo peer (p2ptest/p2p.py).

The embedding is shallow: Python dicts become functions to `Option`,
Python lists become Lean lists, the network is an oracle parameter
(`ok : PeerAddress → Bool` for connect outcomes, explicit read/write
outcomes for socket I/O), and `json.loads` / `json.dumps` are embedded
as an executable JSON codec restricted to integer numerals.
-/

/-- A peer address `(host_ip, host_port)`, the tuples stored in
`Manager.peers` and `Manager.active_clients`. -/
structure PeerAddress where
  host : String
  port : Nat
deriving DecidableEq, Repr

/-- The state owned by `Manager` in ClientManager.py: the FIFO pool of
available peers and the dictionary mapping client ids to their
currently assigned peer (modelled as a function to `Option`). -/
structure ManagerState where
  peers : List PeerAddress
  active_clients : Nat → Option PeerAddress

/-- The state of a freshly constructed `Manager()`: empty pool, empty
assignment dictionary. -/
def initialManager : ManagerState :=
  { peers := [], active_clients := fun _ => none }

/-- Model of `Manager.add_peer`: unconditionally appends `(host_ip, host_port)`
to the tail of the pool (the source performs no duplicate check). -/
def add_peer (s : ManagerState) (host_ip : String) (host_port : Nat) : ManagerState :=
  { s with peers := s.peers ++ [⟨host_ip, host_port⟩] }

/-- Model of `Manager.get_new_peer`: if the pool is non-empty, pops its head,
records it as the client's assignment (overwriting any previous entry)
and returns it; otherwise returns `None` and leaves the state alone. -/
def get_new_peer (s : ManagerState) (client_id : Nat) :
    Option PeerAddress × ManagerState :=
  match s.peers with
  | [] => (none, s)
  | new_peer :: rest =>
      (some new_peer,
       { peers := rest,
         active_clients := fun c =>
           if c = client_id then some new_peer else s.active_clients c })

/-- Model of `Manager.handle_client_failure`: deletes the client's entry from the
assignment dictionary if present (a no-op for unknown clients). -/
def handle_client_failure (s : ManagerState) (client_id : Nat) : ManagerState :=
  { s with active_clients := fun c =>
      if c = client_id then none else s.active_clients c }

/-- Removal of the first occurrence of an element from a list; this is
what Python's `if peer in self.peers: self.peers.remove(peer)` does. -/
def removeFirst (a : PeerAddress) : List PeerAddress → List PeerAddress
  | [] => []
  | x :: xs => if x = a then xs else x :: removeFirst a xs

/-- Model of `Manager.remove_peer`: removes the first matching pool entry if
present, otherwise leaves the pool unchanged. -/
def remove_peer (s : ManagerState) (host_ip : String) (host_port : Nat) : ManagerState :=
  { s with peers := removeFirst ⟨host_ip, host_port⟩ s.peers }

/-- One external operation on the manager, as invoked by clients and by
the application seeding the pool. -/
inductive MOp where
  | addp (host : String) (port : Nat)
  | alloc (cid : Nat)
  | removep (host : String) (port : Nat)
  | fail (cid : Nat)
deriving DecidableEq, Repr

/-- Apply a single manager operation. -/
def applyOp (s : ManagerState) : MOp → ManagerState
  | .addp h p => add_peer s h p
  | .alloc cid => (get_new_peer s cid).2
  | .removep h p => remove_peer s h p
  | .fail cid => handle_client_failure s cid

/-- Run a sequence of manager operations from the initial state. -/
def runOps (ops : List MOp) : ManagerState := ops.foldl applyOp initialManager

/-- Manager states reachable from the initial state when every
`add_peer` call supplies a fresh address: one not currently in the pool
and not currently assigned to any client.  (Unrestricted `add_peer`
admits duplicate pool entries, under which exclusive allocation fails;
see the counterexample for C2.) -/
inductive ReachableFresh : ManagerState → Prop where
  | init : ReachableFresh initialManager
  | addp {s : ManagerState} (host : String) (port : Nat) :
      ReachableFresh s →
      (⟨host, port⟩ : PeerAddress) ∉ s.peers →
      (∀ c, s.active_clients c ≠ some ⟨host, port⟩) →
      ReachableFresh (add_peer s host port)
  | alloc {s : ManagerState} (cid : Nat) :
      ReachableFresh s → ReachableFresh (get_new_peer s cid).2
  | removep {s : ManagerState} (host : String) (port : Nat) :
      ReachableFresh s → ReachableFresh (remove_peer s host port)
  | fail {s : ManagerState} (cid : Nat) :
      ReachableFresh s → ReachableFresh (handle_client_failure s cid)

/-- The inductive invariant behind exclusive allocation: the pool has no
duplicates, pooled addresses are unassigned, and no address is assigned
to two distinct clients. -/
def ManagerInv (s : ManagerState) : Prop :=
  s.peers.Nodup ∧
  (∀ a ∈ s.peers, ∀ c, s.active_clients c ≠ some a) ∧
  (∀ c d a, s.active_clients c = some a → s.active_clients d = some a → c = d)

/-- The per-connection state from Client.py read and written by the
reconnect / send / receive logic: the currently targeted peer, the
`connected` flag and the retry budget `max_retries`. -/
structure ClientState where
  host_ip : String
  host_port : Nat
  connected : Bool
  max_retries : Nat
deriving DecidableEq, Repr

/-- The peer currently targeted by the client. -/
def target (c : ClientState) : PeerAddress := ⟨c.host_ip, c.host_port⟩

/-- Observable events of a client run: a socket connect attempt against
a target, a replacement request to `Manager.get_new_peer`, a failure
notification to `Manager.handle_client_failure`, and entry into
`Client.reconnect`. -/
inductive Event where
  | attempt (addr : PeerAddress)
  | requestPeer
  | notifyFailure
  | reconnectStart
deriving DecidableEq, Repr

def isAttempt : Event → Bool
  | .attempt _ => true
  | _ => false

def isRequestPeer : Event → Bool
  | .requestPeer => true
  | _ => false

def isReconnectStart : Event → Bool
  | .reconnectStart => true
  | _ => false

/-- Number of connect attempts recorded in a trace. -/
def countAttempts (evs : List Event) : Nat := evs.countP isAttempt

/-- Number of connect attempts performed before the first replacement
request to the manager. -/
def attemptsBeforeFirstRequest (evs : List Event) : Nat :=
  countAttempts (evs.takeWhile (fun e => !isRequestPeer e))

/-- Number of connect attempts performed from the first replacement
request to the manager onwards. -/
def attemptsAfterFirstRequest (evs : List Event) : Nat :=
  countAttempts (evs.dropWhile (fun e => !isRequestPeer e))

/-- Result of running a client control-flow path: the Python return
value of `Client.reconnect`, the final client and manager states, and
the event trace. -/
structure RunResult where
  success : Bool
  client : ClientState
  mgr : ManagerState
  events : List Event

/-- Model of `Client.connect`: the socket outcome is decided by the network
oracle `ok`; success sets `connected`, an error clears it. -/
def connectStep (ok : PeerAddress → Bool) (c : ClientState) : ClientState :=
  { c with connected := ok (target c) }

/-- Model of `Client.close`: best-effort socket close; always clears
`connected`. -/
def closeStep (c : ClientState) : ClientState := { c with connected := false }

/-- Model of `Client.notify_manager_failure`: reports the failure to the manager
(which deletes the client's table entry) and closes the client. -/
def notify_manager_failure (cid : Nat) (c : ClientState) (m : ManagerState) :
    ClientState × ManagerState :=
  (closeStep c, handle_client_failure m cid)

/-- Model of `Client.request_new_peer`: asks the manager for a new peer; on a
grant, retargets the client; on exhaustion, notifies the manager of
failure and closes. -/
def request_new_peer (cid : Nat) (c : ClientState) (m : ManagerState) :
    ClientState × ManagerState × List Event :=
  match get_new_peer m cid with
  | (some p, m1) =>
      ({ c with host_ip := p.host, host_port := p.port }, m1, [.requestPeer])
  | (none, m1) =>
      let (c2, m2) := notify_manager_failure cid c m1
      (c2, m2, [.requestPeer, .notifyFailure])

/-- The `while retries < max_retries` loop of `Client.reconnect`, with
`fuel` the number of remaining iterations.  Each iteration closes any
live socket, performs one connect attempt against the current target,
returns `True` on success, and otherwise requests a new peer before the
next iteration; once the budget is exhausted the client notifies the
manager of its failure and returns `False`. -/
def reconnectLoop (ok : PeerAddress → Bool) (cid : Nat) :
    Nat → ClientState → ManagerState → RunResult
  | 0, c, m =>
      let (c1, m1) := notify_manager_failure cid c m
      { success := false, client := c1, mgr := m1, events := [.notifyFailure] }
  | fuel + 1, c, m =>
      let c1 := connectStep ok (closeStep c)
      if c1.connected then
        { success := true, client := c1, mgr := m, events := [.attempt (target c)] }
      else
        let (c2, m2, evs) := request_new_peer cid c1 m
        let r := reconnectLoop ok cid fuel c2 m2
        { r with events := .attempt (target c) :: (evs ++ r.events) }

/-- Model of `Client.reconnect`: runs the retry loop with budget `max_retries`;
the `reconnectStart` event marks the invocation of the policy. -/
def reconnect (ok : PeerAddress → Bool) (cid : Nat) (c : ClientState)
    (m : ManagerState) : RunResult :=
  let r := reconnectLoop ok cid c.max_retries c m
  { r with events := .reconnectStart :: r.events }

/-- Outcome of the lock-guarded `sendall` on the socket, supplied by the
environment. -/
inductive WriteOutcome where
  | ok
  | err
deriving DecidableEq, Repr

/-- Result of `Client.send`: the Python return value (the source returns
`None` on every path — there is no `return` carrying a value), the
final states and the event trace. -/
structure SendResult where
  ret : Option Bool
  client : ClientState
  mgr : ManagerState
  events : List Event

/-- The tail of `Client.send` once the client is (believed) connected:
serialize and `sendall`; on a write error call `self.reconnect()`,
discarding its result, and fall through returning `None`. -/
def sendConnected (ok : PeerAddress → Bool) (wr : WriteOutcome) (cid : Nat)
    (c : ClientState) (m : ManagerState) (evs : List Event) : SendResult :=
  match wr with
  | .ok => { ret := none, client := c, mgr := m, events := evs }
  | .err =>
      let r := reconnect ok cid c m
      { ret := none, client := r.client, mgr := r.mgr, events := evs ++ r.events }

/-- Model of `Client.send`: if not connected, first run `reconnect`, returning
`None` if it fails; then perform the lock-guarded write, and on a write
error invoke `reconnect` once, discarding its outcome; every path
returns `None`. -/
def send (ok : PeerAddress → Bool) (wr : WriteOutcome) (cid : Nat)
    (c : ClientState) (m : ManagerState) : SendResult :=
  if c.connected then sendConnected ok wr cid c m []
  else
    let r := reconnect ok cid c m
    if r.success then sendConnected ok wr cid r.client r.mgr r.events
    else { ret := none, client := r.client, mgr := r.mgr, events := r.events }

/-- JSON values as handled by `json.loads` / `json.dumps` in the demo
peer, with numerals restricted to integers (the ids and error codes the
protocol uses; floating-point numerals are outside the model). -/
inductive Json where
  | null
  | bool (b : Bool)
  | num (n : Int)
  | str (s : String)
  | arr (elems : List Json)
  | obj (fields : List (String × Json))
deriving Repr

/-- Lowercase hexadecimal digit, as `json.dumps` prints in `\uXXXX`
escapes. -/
def hexDig (n : Nat) : Char :=
  match n with
  | 0 => '0' | 1 => '1' | 2 => '2' | 3 => '3' | 4 => '4'
  | 5 => '5' | 6 => '6' | 7 => '7' | 8 => '8' | 9 => '9'
  | 10 => 'a' | 11 => 'b' | 12 => 'c' | 13 => 'd' | 14 => 'e'
  | _ => 'f'

/-- Hexadecimal digit value, both cases, as accepted by `json.loads`. -/
def hexVal (c : Char) : Option Nat :=
  if 48 ≤ c.toNat ∧ c.toNat ≤ 57 then some (c.toNat - 48)
  else if 97 ≤ c.toNat ∧ c.toNat ≤ 102 then some (c.toNat - 87)
  else if 65 ≤ c.toNat ∧ c.toNat ≤ 70 then some (c.toNat - 55)
  else none

/-- Four lowercase hex digits, most significant first. -/
def toHex4 (v : Nat) : List Char :=
  [hexDig (v / 4096 % 16), hexDig (v / 256 % 16), hexDig (v / 16 % 16),
   hexDig (v % 16)]

/-- The `json.dumps` escaping of one character with the source's default
`ensure_ascii=True`: two-character shorthands for the common escapes,
`\u00XX` for other control characters, printable ASCII verbatim,
`\uXXXX` for other characters of the Basic Multilingual Plane, and a
UTF-16 surrogate pair for characters beyond it. -/
def escChar (c : Char) : List Char :=
  if c = '"' then ['\\', '"']
  else if c = '\\' then ['\\', '\\']
  else if c = '\n' then ['\\', 'n']
  else if c = '\r' then ['\\', 'r']
  else if c = '\t' then ['\\', 't']
  else if c.toNat = 8 then ['\\', 'b']
  else if c.toNat = 12 then ['\\', 'f']
  else if c.toNat < 32 then '\\' :: 'u' :: toHex4 c.toNat
  else if c.toNat < 127 then [c]
  else if c.toNat < 65536 then '\\' :: 'u' :: toHex4 c.toNat
  else
    ('\\' :: 'u' :: toHex4 (55296 + (c.toNat - 65536) / 1024)) ++
    ('\\' :: 'u' :: toHex4 (56320 + (c.toNat - 65536) % 1024))

/-- The `json.dumps` escaping of a character sequence. -/
def escList : List Char → List Char
  | [] => []
  | c :: cs => escChar c ++ escList cs

/-- A quoted JSON string literal as `json.dumps` prints it. -/
def qstr (s : String) : List Char := '"' :: (escList s.data ++ ['"'])

/-- Decimal digit character. -/
def digitChar10 (n : Nat) : Char :=
  match n with
  | 0 => '0' | 1 => '1' | 2 => '2' | 3 => '3' | 4 => '4'
  | 5 => '5' | 6 => '6' | 7 => '7' | 8 => '8' | _ => '9'

/-- Digit production for `natChars`; the fuel argument only bounds
recursion depth and any fuel above the number's value is enough. -/
def natCharsAux : Nat → Nat → List Char
  | 0, _ => []
  | fuel + 1, n =>
      if n < 10 then [digitChar10 n]
      else natCharsAux fuel (n / 10) ++ [digitChar10 (n % 10)]

/-- The decimal digits of a natural number, as Python prints it. -/
def natChars (n : Nat) : List Char := natCharsAux (n + 1) n

/-- An integer as Python prints it. -/
def intChars (i : Int) : List Char :=
  if i < 0 then '-' :: natChars (-i).toNat else natChars i.toNat

/-- A JSON-RPC request of the shape the demo peer sends on the wire
(`send_hello_world`): a string method, string params and an integer
id. -/
structure Request where
  method : String
  params : String
  id : Int
deriving DecidableEq, Repr

/-- The JSON text `json.dumps` produces for the request dictionary
`\x7b'jsonrpc': '2.0', 'method': m, 'params': p, 'id': n\x7d` with the
source's insertion order and default separators (`", "` and `": "`). -/
def encodeRequestLine (r : Request) : List Char :=
  ['\x7b'] ++ qstr "jsonrpc" ++ [':', ' '] ++ qstr "2.0" ++ [',', ' '] ++
  qstr "method" ++ [':', ' '] ++ qstr r.method ++ [',', ' '] ++
  qstr "params" ++ [':', ' '] ++ qstr r.params ++ [',', ' '] ++
  qstr "id" ++ [':', ' '] ++ intChars r.id ++ ['\x7d']

/-- Model of `send_hello_world`'s framing: the JSON text plus the single `\n`
delimiter.  With `ensure_ascii=True` the text is pure ASCII, so the
character positions of this model coincide with byte offsets on the
wire. -/
def encodeRequest (r : Request) : List Char := encodeRequestLine r ++ ['\n']

/-- The JSON value the request text denotes. -/
def requestJson (r : Request) : Json :=
  .obj [("jsonrpc", .str "2.0"), ("method", .str r.method),
        ("params", .str r.params), ("id", .num r.id)]

/-- One pass of the receiver's line extraction: split a buffer into its
complete `\n`-terminated lines and the trailing incomplete remainder —
the `while chr(10) in buffer` loop of `handle_peer_connection`. -/
def splitLines : List Char → List (List Char) × List Char
  | [] => ([], [])
  | c :: cs =>
      if c = '\n' then ([] :: (splitLines cs).1, (splitLines cs).2)
      else
        match splitLines cs with
        | (l :: ls, rest) => ((c :: l) :: ls, rest)
        | ([], rest) => ([], c :: rest)

/-- The receiver's accumulation loop of `handle_peer_connection`: each
`recv` chunk is appended to the buffer and the complete lines are
extracted; an empty read signals the peer closed and stops the loop. -/
def processChunks : List Char → List (List Char) → List (List Char) × List Char
  | buf, [] => ([], buf)
  | buf, ch :: rest =>
      if ch = [] then ([], buf)
      else
        ((splitLines (buf ++ ch)).1 ++ (processChunks (splitLines (buf ++ ch)).2 rest).1,
         (processChunks (splitLines (buf ++ ch)).2 rest).2)

/-- Whitespace skipping as `json.loads` performs between tokens. -/
def skipWs : List Char → List Char
  | [] => []
  | c :: cs =>
      if c = ' ' ∨ c = '\t' ∨ c = '\n' ∨ c = '\r' then skipWs cs else c :: cs

/-- Decimal digit test. -/
def isDigitCh (c : Char) : Bool := 48 ≤ c.toNat && c.toNat ≤ 57

/-- Accumulate a decimal numeral left to right. -/
def digitsLoop (acc : Nat) : List Char → Nat × List Char
  | [] => (acc, [])
  | c :: cs =>
      if isDigitCh c then digitsLoop (10 * acc + (c.toNat - 48)) cs
      else (acc, c :: cs)

/-- Parse a nonempty decimal numeral. -/
def pNat : List Char → Option (Nat × List Char)
  | [] => none
  | c :: cs =>
      if isDigitCh c then some (digitsLoop (c.toNat - 48) cs) else none

/-- The two-character escape shorthands of the JSON grammar. -/
def escShorthand (e : Char) : Option Char :=
  if e = '"' then some '"'
  else if e = '\\' then some '\\'
  else if e = '/' then some '/'
  else if e = 'n' then some '\n'
  else if e = 't' then some '\t'
  else if e = 'r' then some '\r'
  else if e = 'b' then some (Char.ofNat 8)
  else if e = 'f' then some (Char.ofNat 12)
  else none

/-- Parse the four hex digits after `\u`, combining a UTF-16 surrogate
pair into one scalar value when a high surrogate is followed by
`\uXXXX` with a low surrogate; lone surrogates are rejected. -/
def pUni : List Char → Option (Char × List Char)
  | a1 :: a2 :: a3 :: a4 :: cs3 =>
      match hexVal a1, hexVal a2, hexVal a3, hexVal a4 with
      | some v1, some v2, some v3, some v4 =>
          if 55296 ≤ 4096 * v1 + 256 * v2 + 16 * v3 + v4 ∧
             4096 * v1 + 256 * v2 + 16 * v3 + v4 ≤ 56319 then
            match cs3 with
            | b0 :: b1 :: b2 :: b3 :: b4 :: b5 :: cs5 =>
                if b0 = '\\' ∧ b1 = 'u' then
                  match hexVal b2, hexVal b3, hexVal b4, hexVal b5 with
                  | some w1, some w2, some w3, some w4 =>
                      if 56320 ≤ 4096 * w1 + 256 * w2 + 16 * w3 + w4 ∧
                         4096 * w1 + 256 * w2 + 16 * w3 + w4 ≤ 57343 then
                        some (Char.ofNat (65536 +
                          (4096 * v1 + 256 * v2 + 16 * v3 + v4 - 55296) * 1024 +
                          (4096 * w1 + 256 * w2 + 16 * w3 + w4 - 56320)), cs5)
                      else none
                  | _, _, _, _ => none
                else none
            | _ => none
          else if 56320 ≤ 4096 * v1 + 256 * v2 + 16 * v3 + v4 ∧
                  4096 * v1 + 256 * v2 + 16 * v3 + v4 ≤ 57343 then none
          else some (Char.ofNat (4096 * v1 + 256 * v2 + 16 * v3 + v4), cs3)
      | _, _, _, _ => none
  | _ => none

/-- Parse the body of a JSON string literal (after the opening quote),
handling the escape sequences of the JSON grammar including `\uXXXX`
and UTF-16 surrogate pairs; unescaped control characters are rejected
(strict mode).  The fuel only bounds recursion depth; every step
consumes at least one character, so `pString` below always supplies
enough. -/
def pStringF : Nat → List Char → Option (List Char × List Char)
  | 0, _ => none
  | fuel + 1, s =>
      match s with
      | [] => none
      | c :: cs =>
          if c = '"' then some ([], cs)
          else if c = '\\' then
            match cs with
            | [] => none
            | e :: cs2 =>
                if e = 'u' then
                  match pUni cs2 with
                  | some (ch, cs3) => (pStringF fuel cs3).map (fun p => (ch :: p.1, p.2))
                  | none => none
                else
                  match escShorthand e with
                  | some ch => (pStringF fuel cs2).map (fun p => (ch :: p.1, p.2))
                  | none => none
          else if c.toNat < 32 then none
          else (pStringF fuel cs).map (fun p => (c :: p.1, p.2))

/-- The string-body parser with its always-sufficient fuel. -/
def pString (s : List Char) : Option (List Char × List Char) :=
  pStringF (s.length + 1) s

/-- The bundle of JSON parsers at one recursion depth.  Recursion is
tied through `mkPack` below, structurally on a fuel bound; the
dispatch helpers themselves are non-recursive. -/
structure ParserPack where
  value : List Char → Option (Json × List Char)
  elems : List Char → Option (List Json × List Char)
  fields : List Char → Option (List (String × Json) × List Char)

/-- Continuation after one array element: `,` or `]`. -/
def pElemsRestF (p : ParserPack) (v : Json) : List Char → Option (List Json × List Char)
  | ',' :: r2 => (p.elems (skipWs r2)).map (fun q => (v :: q.1, q.2))
  | ']' :: r2 => some ([v], r2)
  | _ => none

/-- One or more comma-separated array elements up to `]`. -/
def pElemsF (p : ParserPack) (s : List Char) : Option (List Json × List Char) :=
  match p.value s with
  | none => none
  | some (v, r) => pElemsRestF p v (skipWs r)

/-- Continuation after one object field: `,` or the closing brace. -/
def pFieldsRestF (p : ParserPack) (k : String) (v : Json) :
    List Char → Option (List (String × Json) × List Char)
  | ',' :: r4 => (p.fields (skipWs r4)).map (fun q => ((k, v) :: q.1, q.2))
  | '\x7d' :: r4 => some ([(k, v)], r4)
  | _ => none

/-- The `: value` part of an object field. -/
def pFieldColonF (p : ParserPack) (k : String) :
    List Char → Option (List (String × Json) × List Char)
  | ':' :: r2 =>
      (match p.value r2 with
       | none => none
       | some (v, r3) => pFieldsRestF p k v (skipWs r3))
  | _ => none

/-- One or more `"key": value` object fields up to the closing brace. -/
def pFieldsF (p : ParserPack) : List Char → Option (List (String × Json) × List Char)
  | '"' :: r =>
      (match pString r with
       | none => none
       | some (k, r1) => pFieldColonF p ⟨k⟩ (skipWs r1))
  | _ => none

/-- An array body: either an immediate `]` or a list of elements. -/
def pArrF (p : ParserPack) : List Char → Option (Json × List Char)
  | ']' :: r => some (.arr [], r)
  | s => (pElemsF p s).map (fun q => (Json.arr q.1, q.2))

/-- An object body: either an immediate closing brace or a list of
fields. -/
def pObjF (p : ParserPack) : List Char → Option (Json × List Char)
  | '\x7d' :: r => some (.obj [], r)
  | s => (pFieldsF p s).map (fun q => (Json.obj q.1, q.2))

/-- Dispatch on the first character of a JSON value. -/
def pTokenF (p : ParserPack) : List Char → Option (Json × List Char)
  | 'n' :: 'u' :: 'l' :: 'l' :: r => some (.null, r)
  | 't' :: 'r' :: 'u' :: 'e' :: r => some (.bool true, r)
  | 'f' :: 'a' :: 'l' :: 's' :: 'e' :: r => some (.bool false, r)
  | '"' :: r => (pString r).map (fun q => (Json.str ⟨q.1⟩, q.2))
  | '[' :: r => pArrF p (skipWs r)
  | '\x7b' :: r => pObjF p (skipWs r)
  | '-' :: r => (pNat r).map (fun q => (Json.num (-(q.1 : Int)), q.2))
  | c :: r =>
      if isDigitCh c then (pNat (c :: r)).map (fun q => (Json.num (q.1 : Int), q.2))
      else none
  | [] => none

/-- The parser bundle with the given recursion-depth budget; zero fuel
parses nothing, and one more level of fuel allows one more descent into
a nested value or one more element of a sequence. -/
def mkPack : Nat → ParserPack
  | 0 => ⟨fun _ => none, fun _ => none, fun _ => none⟩
  | fuel + 1 =>
      ⟨fun s => pTokenF (mkPack fuel) (skipWs s),
       fun s => pElemsF (mkPack fuel) s,
       fun s => pFieldsF (mkPack fuel) s⟩

/-- Parse one JSON value after skipping leading whitespace. -/
def pValue (fuel : Nat) (s : List Char) : Option (Json × List Char) :=
  (mkPack fuel).value s

/-- Model of `json.loads`: parse one JSON document, requiring the whole input to
be consumed up to trailing whitespace.  The fuel `6 * length + 10`
dominates the parser's recursion depth on any input. -/
def jsonLoads (s : String) : Option Json :=
  match pValue (6 * s.length + 10) s.data with
  | some (v, rest) => if skipWs rest = [] then some v else none
  | none => none

/-- Dictionary lookup on parsed object fields; on duplicate keys the
later entry wins, as when Python builds the dict. -/
def jget : List (String × Json) → String → Option Json
  | [], _ => none
  | (k, v) :: rest, key =>
      match jget rest key with
      | some v2 => some v2
      | none => if k = key then some v else none

/-- Python's `key in dict` test on parsed object fields. -/
def hasKey (fields : List (String × Json)) (k : String) : Bool :=
  (jget fields k).isSome

/-- Does the first character list start the second one? -/
def leadsWith : List Char → List Char → Bool
  | [], _ => true
  | _ :: _, [] => false
  | a :: as, b :: bs => a = b && leadsWith as bs

/-- Does the first character list occur contiguously inside the
second one? -/
def occursIn (sub : List Char) : List Char → Bool
  | [] => sub.isEmpty
  | b :: bs => leadsWith sub (b :: bs) || occursIn sub bs

/-- Python's `key in message` when `message` is a string: a substring
test. -/
def strContains (s key : String) : Bool :=
  occursIn key.data s.data

/-- Python's `key in message` when `message` is a list: element
membership, the string key comparing equal only to equal string
elements. -/
def strElem (xs : List Json) (key : String) : Bool :=
  xs.any fun j =>
    match j with
    | .str t => t = key
    | _ => false

/-- The request-shape test of `handle_json_rpc`:
`'method' in message and 'params' in message and 'id' in message` on a
dict. -/
def isRequestShape : Json → Bool
  | .obj fields => hasKey fields "method" && hasKey fields "params" && hasKey fields "id"
  | _ => false

/-- The response-shape test of `handle_json_rpc`:
`'result' in message or 'error' in message` on a dict. -/
def isResponseShape : Json → Bool
  | .obj fields => hasKey fields "result" || hasKey fields "error"
  | _ => false

/-- The decoding a receiver performs on one complete line for a request
of the wire shape: `json.loads`, the request-shape test, and extraction
of the `method`, `params` and `id` fields. -/
def decodeRequest (line : String) : Option Request :=
  match jsonLoads line with
  | some (.obj fields) =>
      if hasKey fields "method" && hasKey fields "params" && hasKey fields "id" then
        match jget fields "method", jget fields "params", jget fields "id" with
        | some (.str m), some (.str p), some (.num i) => some ⟨m, p, i⟩
        | _, _, _ => none
      else none
  | _ => none

/-- The role string passed to `handle_peer_connection`. -/
inductive PeerType where
  | server
  | client
deriving DecidableEq, Repr

/-- The Invalid-Request error response emitted by the `except` branch of
`handle_json_rpc` (insertion order of the source dict). -/
def invalidRequestResponse : Json :=
  .obj [("jsonrpc", .str "2.0"),
        ("error", .obj [("code", .num (-32600)), ("message", .str "Invalid Request")]),
        ("id", .null)]

/-- The request `send_hello_world` emits with the given id. -/
def helloWorldRequest (rid : Int) : Json :=
  .obj [("jsonrpc", .str "2.0"), ("method", .str "echo"),
        ("params", .str "hello world"), ("id", .num rid)]

/-- Python's `method == 'echo'` test on a JSON value. -/
def isEchoMethod : Json → Bool
  | .str s => s = "echo"
  | _ => false

/-- Model of `handle_json_rpc` applied to an already-parsed value: the list of
JSON messages written back to the socket.  The membership tests are
Python's duck-typed `in`: key tests on a dict, substring tests on a
string, element tests on a list; on any other value the test itself
raises `TypeError` into the `except` branch.  A non-dict value that
selects the request branch raises at the `message['method']` subscript;
one that selects the response branch is only printed by a Server (no
output) but raises at `message['id'] + 1` on a Client.  Every raise is
answered by the `except` branch with the Invalid-Request response. -/
def handleValue (pt : PeerType) (m : Json) : List Json :=
  match m with
  | .obj fields =>
      if hasKey fields "method" && hasKey fields "params" && hasKey fields "id" then
        let params := (jget fields "params").getD .null
        let rid := (jget fields "id").getD .null
        if isEchoMethod ((jget fields "method").getD .null) then
          let resp := Json.obj [("jsonrpc", .str "2.0"), ("id", rid), ("result", params)]
          match pt with
          | .client => [resp]
          | .server =>
              match rid with
              | .num n => [resp, helloWorldRequest (n + 1)]
              | _ => [resp, invalidRequestResponse]
        else
          [Json.obj [("jsonrpc", .str "2.0"), ("id", rid),
                     ("error", .obj [("code", .num (-32601)),
                                     ("message", .str "Method not found")])]]
      else if hasKey fields "result" || hasKey fields "error" then
        match pt with
        | .server => []
        | .client =>
            match jget fields "id" with
            | some (.num n) => [helloWorldRequest (n + 1)]
            | _ => [invalidRequestResponse]
      else [invalidRequestResponse]
  | .str s =>
      if strContains s "method" && strContains s "params" && strContains s "id" then
        [invalidRequestResponse]
      else if strContains s "result" || strContains s "error" then
        match pt with
        | .server => []
        | .client => [invalidRequestResponse]
      else [invalidRequestResponse]
  | .arr xs =>
      if strElem xs "method" && strElem xs "params" && strElem xs "id" then
        [invalidRequestResponse]
      else if strElem xs "result" || strElem xs "error" then
        match pt with
        | .server => []
        | .client => [invalidRequestResponse]
      else [invalidRequestResponse]
  | _ => [invalidRequestResponse]

/-- Python's duck-typed branch selection in `handle_json_rpc`: true when
the value selects neither the request branch nor the response branch —
the membership tests all fail for a dict (key tests), a string
(substring tests) or a list (element tests); any other value, whose
membership test itself raises into the `except` branch, also selects
neither. -/
def matchesNeitherBranch : Json → Bool
  | .obj fields =>
      !(hasKey fields "method" && hasKey fields "params" && hasKey fields "id") &&
      !(hasKey fields "result" || hasKey fields "error")
  | .str s =>
      !(strContains s "method" && strContains s "params" && strContains s "id") &&
      !(strContains s "result" || strContains s "error")
  | .arr xs =>
      !(strElem xs "method" && strElem xs "params" && strElem xs "id") &&
      !(strElem xs "result" || strElem xs "error")
  | _ => true

/-- Model of `handle_json_rpc` on one received line. -/
def handleJsonRpc (pt : PeerType) (line : String) : List Json :=
  match jsonLoads line with
  | none => [invalidRequestResponse]
  | some m => handleValue pt m

/-- The receive loop's handling of a sequence of complete lines: each
line is handled in order; handling a line never breaks the loop (only
an empty read or a socket error in `handle_peer_connection` does). -/
def processLines (pt : PeerType) : List String → List Json
  | [] => []
  | l :: rest => handleJsonRpc pt l ++ processLines pt rest

/-- Outcome of the lock-guarded `recv` in `Client.receive`: data (the
empty string being a clean peer-initiated close) or a socket error. -/
inductive ReadOutcome where
  | data (s : String)
  | err
deriving DecidableEq, Repr

/-- Result of `Client.receive`: `Except.error` marks the uncaught
`json.JSONDecodeError` the source lets escape (only socket errors are
caught), `Except.ok none` is Python's `return None`, and
`Except.ok (some v)` a decoded message. -/
structure RecvResult where
  ret : Except Unit (Option Json)
  client : ClientState
  mgr : ManagerState
  events : List Event

/-- The tail of `Client.receive` once the client is (believed)
connected: `recv`, then `json.loads`; a socket error triggers one
`reconnect` whose outcome is discarded and `None` is returned; an
undecodable read — including the empty bytes of a clean close —
raises. -/
def recvConnected (ok : PeerAddress → Bool) (rd : ReadOutcome) (cid : Nat)
    (c : ClientState) (m : ManagerState) (evs : List Event) : RecvResult :=
  match rd with
  | .err =>
      let r := reconnect ok cid c m
      { ret := .ok none, client := r.client, mgr := r.mgr, events := evs ++ r.events }
  | .data s =>
      match jsonLoads s with
      | some v => { ret := .ok (some v), client := c, mgr := m, events := evs }
      | none => { ret := .error (), client := c, mgr := m, events := evs }

/-- Model of `Client.receive`: if not connected, first run `reconnect`, returning
`None` if it fails; then read and decode as in `recvConnected`. -/
def receive (ok : PeerAddress → Bool) (rd : ReadOutcome) (cid : Nat)
    (c : ClientState) (m : ManagerState) : RecvResult :=
  if c.connected then recvConnected ok rd cid c m []
  else
    let r := reconnect ok cid c m
    if r.success then recvConnected ok rd cid r.client r.mgr r.events
    else { ret := .ok none, client := r.client, mgr := r.mgr, events := r.events }

/-- Does a character sequence start with a decimal digit? -/
def headIsDigit : List Char → Bool
  | [] => false
  | c :: _ => isDigitCh c

theorem removeFirst_sublist (a : PeerAddress) (l : List PeerAddress) :
    (removeFirst a l).Sublist l := by
  induction l with
  | nil => simp [removeFirst]
  | cons x xs ih =>
      simp only [removeFirst]
      split
      · exact List.sublist_cons_self x xs
      · exact ih.cons₂ x

theorem managerInv_initial : ManagerInv initialManager := by
  refine ⟨List.nodup_nil, ?_, ?_⟩
  · intro a ha; simp [initialManager] at ha
  · intro c d a hc; simp [initialManager] at hc

theorem managerInv_preserved {s : ManagerState} (h : ReachableFresh s) :
    ManagerInv s := by
  induction h with
  | init => exact managerInv_initial
  | addp host port _ hfreshPool hfreshTable ih =>
      obtain ⟨hnd, hdisj, hinj⟩ := ih
      refine ⟨?_, ?_, ?_⟩
      · simpa [add_peer, List.nodup_append] using ⟨hnd, hfreshPool⟩
      · intro a ha c
        simp only [add_peer, List.mem_append, List.mem_singleton] at ha
        rcases ha with ha | rfl
        · exact hdisj a ha c
        · exact hfreshTable c
      · intro c d a hc hd
        exact hinj c d a hc hd
  | alloc cid _ ih =>
      obtain ⟨hnd, hdisj, hinj⟩ := ih
      rename_i s' _
      rcases hp : s'.peers with _ | ⟨hd0, tl⟩
      · simpa [get_new_peer, hp] using ⟨hnd, hdisj, hinj⟩
      · have hndcons := hp ▸ hnd
        have hhd : hd0 ∉ tl := (List.nodup_cons.mp hndcons).1
        have hndtl : tl.Nodup := (List.nodup_cons.mp hndcons).2
        refine ⟨?_, ?_, ?_⟩
        · simpa [get_new_peer, hp] using hndtl
        · intro a ha c
          simp only [get_new_peer, hp] at ha ⊢
          split
          · intro hcontra
            have : hd0 = a := by simpa using hcontra
            exact hhd (this ▸ ha)
          · exact hdisj a (hp ▸ List.mem_cons_of_mem hd0 ha) c
        · intro c d a hc hd
          simp only [get_new_peer, hp] at hc hd
          by_cases hcc : c = cid <;> by_cases hdd : d = cid

          · exact hcc.trans hdd.symm
          · exfalso
            rw [if_pos hcc] at hc
            rw [if_neg hdd] at hd
            have : hd0 = a := by simpa using hc
            exact hdisj a (hp ▸ (this ▸ List.mem_cons_self hd0 tl)) d hd
          · exfalso
            rw [if_neg hcc] at hc
            rw [if_pos hdd] at hd
            have : hd0 = a := by simpa using hd
            exact hdisj a (hp ▸ (this ▸ List.mem_cons_self hd0 tl)) c hc
          · exact hinj c d a (by simpa [hcc] using hc) (by simpa [hdd] using hd)
  | removep host port _ ih =>
      obtain ⟨hnd, hdisj, hinj⟩ := ih
      refine ⟨?_, ?_, ?_⟩
      · exact (removeFirst_sublist _ _).nodup hnd
      · intro a ha c
        exact hdisj a ((removeFirst_sublist _ _).mem ha) c
      · exact hinj
  | fail cid _ ih =>
      obtain ⟨hnd, hdisj, hinj⟩ := ih
      refine ⟨hnd, ?_, ?_⟩
      · intro a ha c
        simp only [handle_client_failure]
        split
        · simp
        · exact hdisj a ha c
      · intro c d a hc hd
        simp only [handle_client_failure] at hc hd
        by_cases hcc : c = cid
        · rw [if_pos hcc] at hc; simp at hc
        · by_cases hdd : d = cid
          · rw [if_pos hdd] at hd; simp at hd
          · exact hinj c d a (by simpa [hcc] using hc) (by simpa [hdd] using hd)

/-- C2 counterexample: with the source's `add_peer`, which performs no
duplicate check, the operation sequence add (A,1), add (A,1),
allocate for client 0, allocate for client 1 reaches a state in which
the two distinct clients 0 and 1 are both mapped to (A,1). -/
theorem exclusive_allocation_cex :
    (runOps [.addp "A" 1, .addp "A" 1, .alloc 0, .alloc 1]).active_clients 0 =
      some ⟨"A", 1⟩ ∧
    (runOps [.addp "A" 1, .addp "A" 1, .alloc 0, .alloc 1]).active_clients 1 =
      some ⟨"A", 1⟩ ∧
    (0 : Nat) ≠ 1 :=
  ⟨rfl, rfl, by decide⟩

/-- C2 (amended): exclusive allocation holds in every manager state
reachable by add_peer / get_new_peer / remove_peer /
handle_client_failure, provided every added address is fresh (neither
currently pooled nor currently assigned): no PeerAddress is
simultaneously assigned to two distinct client ids. -/
theorem exclusive_allocation {s : ManagerState} (hs : ReachableFresh s)
    (c d : Nat) (a : PeerAddress)
    (hc : s.active_clients c = some a) (hd : s.active_clients d = some a) :
    c = d :=
  (managerInv_preserved hs).2.2 c d a hc hd

theorem exclusive_allocation_witness :
    (get_new_peer (add_peer initialManager "A" 1) 0).2.active_clients 0 =
      some ⟨"A", 1⟩ ∧ (0 : Nat) = 0 := by
  have hreach : ReachableFresh (get_new_peer (add_peer initialManager "A" 1) 0).2 :=
    ReachableFresh.alloc 0 (ReachableFresh.addp "A" 1 ReachableFresh.init
      (by simp [initialManager]) (fun c => by simp [initialManager]))
  exact ⟨rfl, exclusive_allocation hreach 0 0 ⟨"A", 1⟩ rfl rfl⟩

/-- C3 (code bug): `Manager.add_peer` appends unconditionally, so adding
an address already in the pool duplicates it instead of leaving the
pool unchanged — the dedup invariant the spec prescribes (and flags the
source as violating) does not hold in the code. -/
theorem add_peer_no_dedup :
    (add_peer { peers := [⟨"A", 1⟩], active_clients := fun _ => none } "A" 1).peers
      = [⟨"A", 1⟩, ⟨"A", 1⟩] ∧
    [(⟨"A", 1⟩ : PeerAddress), ⟨"A", 1⟩] ≠ [⟨"A", 1⟩] :=
  ⟨rfl, by decide⟩

/-- C4: `get_new_peer` on a non-empty pool pops exactly the head,
inserts or overwrites the table entry for the client with that head and
returns it, leaving the tail in order; on an empty pool it returns
`None` and leaves pool and table unchanged. -/
theorem get_new_peer_spec (s : ManagerState) (cid : Nat) :
    (∀ h t, s.peers = h :: t →
        get_new_peer s cid =
          (some h,
           { peers := t,
             active_clients := fun c =>
               if c = cid then some h else s.active_clients c })) ∧
    (s.peers = [] → get_new_peer s cid = (none, s)) := by
  constructor
  · intro h t hp
    simp [get_new_peer, hp]
  · intro hp
    simp [get_new_peer, hp]

theorem get_new_peer_spec_witness :
    get_new_peer
        { peers := [⟨"A", 1⟩, ⟨"B", 2⟩], active_clients := fun _ => none } 7 =
      (some ⟨"A", 1⟩,
       { peers := [⟨"B", 2⟩],
         active_clients := fun c => if c = 7 then some ⟨"A", 1⟩ else none }) :=
  (get_new_peer_spec
    { peers := [⟨"A", 1⟩, ⟨"B", 2⟩], active_clients := fun _ => none } 7).1
    ⟨"A", 1⟩ [⟨"B", 2⟩] rfl

/-- C10 counterexample: in a reachable state where a second client
independently holds the same address (possible because `add_peer` does
not deduplicate), reallocating for client 0 leaves its old address
(A,1) in the assignment table (under client 1) even though (A,1) was
not present in the pool before the call. -/
theorem get_new_peer_old_addr_cex :
    (runOps [.addp "A" 1, .addp "A" 1, .alloc 0, .alloc 1, .addp "B" 2]).active_clients 0
      = some ⟨"A", 1⟩ ∧
    (runOps [.addp "A" 1, .addp "A" 1, .alloc 0, .alloc 1, .addp "B" 2]).peers
      = [⟨"B", 2⟩] ∧
    (⟨"A", 1⟩ : PeerAddress) ∉
      (runOps [.addp "A" 1, .addp "A" 1, .alloc 0, .alloc 1, .addp "B" 2]).peers ∧
    (get_new_peer
        (runOps [.addp "A" 1, .addp "A" 1, .alloc 0, .alloc 1, .addp "B" 2]) 0).2.active_clients 1
      = some ⟨"A", 1⟩ :=
  ⟨rfl, rfl, by decide, rfl⟩

/-- C10 (amended): reallocating for a client that already holds an
assignment pops the head of the non-empty pool, overwrites the table
entry and returns the head; the old address is dropped, so it survives
the call only where it occurs independently — in the pool tail, as the
new head itself, or as another client's assignment. -/
theorem get_new_peer_overwrites_old (s : ManagerState) (cid : Nat)
    (old hd0 : PeerAddress) (t : List PeerAddress)
    (_hold : s.active_clients cid = some old) (hp : s.peers = hd0 :: t) :
    (get_new_peer s cid).1 = some hd0 ∧
    (get_new_peer s cid).2.active_clients cid = some hd0 ∧
    (get_new_peer s cid).2.peers = t ∧
    (old ∉ hd0 :: t → (∀ d, d ≠ cid → s.active_clients d ≠ some old) →
      old ∉ (get_new_peer s cid).2.peers ∧
      ∀ d, (get_new_peer s cid).2.active_clients d ≠ some old) := by
  have hgnp : get_new_peer s cid =
      (some hd0,
       { peers := t,
         active_clients := fun c =>
           if c = cid then some hd0 else s.active_clients c }) := by
    simp [get_new_peer, hp]
  refine ⟨by rw [hgnp], by rw [hgnp]; simp, by rw [hgnp], ?_⟩
  intro hnotin hfresh
  constructor
  · rw [hgnp]
    exact fun hmem => hnotin (List.mem_cons_of_mem hd0 hmem)
  · intro d
    rw [hgnp]
    simp only
    split
    · intro hcontra
      have : hd0 = old := by simpa using hcontra
      exact hnotin (this ▸ List.mem_cons_self hd0 t)
    · next hne => exact hfresh d hne

theorem get_new_peer_overwrites_old_witness :
    ((⟨[⟨"B", 2⟩], fun c => if c = 0 then some ⟨"A", 1⟩ else none⟩ :
        ManagerState).active_clients 0 = some ⟨"A", 1⟩) ∧
    (get_new_peer
        ⟨[⟨"B", 2⟩], fun c => if c = 0 then some ⟨"A", 1⟩ else none⟩ 0).2.active_clients 0
      = some ⟨"B", 2⟩ ∧
    ∀ d, (get_new_peer
        ⟨[⟨"B", 2⟩], fun c => if c = 0 then some ⟨"A", 1⟩ else none⟩ 0).2.active_clients d
      ≠ some ⟨"A", 1⟩ := by
  have h := get_new_peer_overwrites_old
    ⟨[⟨"B", 2⟩], fun c => if c = 0 then some ⟨"A", 1⟩ else none⟩ 0
    ⟨"A", 1⟩ ⟨"B", 2⟩ [] (by decide) rfl
  exact ⟨by decide, h.2.1, (h.2.2.2 (by decide) (fun d hd => by simp [hd])).2⟩

theorem request_new_peer_events (cid : Nat) (c : ClientState) (m : ManagerState) :
    (request_new_peer cid c m).2.2 = [.requestPeer] ∨
    (request_new_peer cid c m).2.2 = [.requestPeer, .notifyFailure] := by
  rcases hg : get_new_peer m cid with ⟨_ | p, m1⟩ <;>
    simp [request_new_peer, hg, notify_manager_failure]

theorem reconnectLoop_counts (ok : PeerAddress → Bool)
    (h : ∀ a, ok a = false) (cid : Nat) :
    ∀ (fuel : Nat) (c : ClientState) (m : ManagerState),
      countAttempts (reconnectLoop ok cid fuel c m).events = fuel ∧
      (reconnectLoop ok cid fuel c m).events.countP isRequestPeer = fuel ∧
      (reconnectLoop ok cid fuel c m).success = false := by
  intro fuel
  induction fuel with
  | zero =>
      intro c m
      simp [reconnectLoop, notify_manager_failure, countAttempts, isAttempt,
        isRequestPeer]
  | succ k ih =>
      intro c m
      have hconn : (connectStep ok (closeStep c)).connected = false := by
        simp [connectStep, h]
      rcases hr : request_new_peer cid (connectStep ok (closeStep c)) m with
        ⟨c2, m2, evs⟩
      have hevs : evs = [.requestPeer] ∨ evs = [.requestPeer, .notifyFailure] := by
        have := request_new_peer_events cid (connectStep ok (closeStep c)) m
        rw [hr] at this
        exact this
      obtain ⟨ih1, ih2, ih3⟩ := ih c2 m2
      rcases hevs with rfl | rfl <;>
        simp [reconnectLoop, hconn, hr, countAttempts, isAttempt, isRequestPeer,
          List.countP_cons, List.countP_append, ih3] <;>
        simp [countAttempts] at ih1 ih2 <;>
        omega

theorem reconnectLoop_events_shape (ok : PeerAddress → Bool)
    (h : ∀ a, ok a = false) (cid : Nat) (k : Nat) (c : ClientState)
    (m : ManagerState) :
    ∃ rest, (reconnectLoop ok cid (k + 1) c m).events =
      .attempt (target c) :: .requestPeer :: rest := by
  have hconn : (connectStep ok (closeStep c)).connected = false := by
    simp [connectStep, h]
  rcases hr : request_new_peer cid (connectStep ok (closeStep c)) m with
    ⟨c2, m2, evs⟩
  have hevs : evs = [.requestPeer] ∨ evs = [.requestPeer, .notifyFailure] := by
    have := request_new_peer_events cid (connectStep ok (closeStep c)) m
    rw [hr] at this
    exact this
  rcases hevs with rfl | rfl <;>
    simp [reconnectLoop, hconn, hr]

/-- C1 counterexample: with `max_retries = 2` and a target that always
fails to connect, `Client.reconnect` performs only one connection
attempt against that target before its first replacement request to the
manager — the source requests a new peer after every failed attempt,
not after `max_retries` failures. -/
theorem reconnect_retry_bound_cex :
    attemptsBeforeFirstRequest
        (reconnect (fun _ => false) 0
          { host_ip := "A", host_port := 1, connected := false, max_retries := 2 }
          { peers := [⟨"B", 2⟩], active_clients := fun _ => none }).events = 1 ∧
    ({ host_ip := "A", host_port := 1, connected := false,
       max_retries := 2 } : ClientState).max_retries = 2 ∧
    (1 : Nat) ≠ 2 :=
  ⟨by decide, rfl, by decide⟩

/-- C1 (amended): with `max_retries = N ≥ 1` and every connect failing,
one invocation of `Client.reconnect` performs exactly one connection
attempt before its first replacement request, and over the whole
invocation performs exactly N attempts and N replacement requests
(one request after each failed attempt) before returning `False`. -/
theorem reconnect_retry_bound (ok : PeerAddress → Bool)
    (h : ∀ a, ok a = false) (cid : Nat) (c : ClientState) (m : ManagerState)
    (hN : 1 ≤ c.max_retries) :
    attemptsBeforeFirstRequest (reconnect ok cid c m).events = 1 ∧
    countAttempts (reconnect ok cid c m).events = c.max_retries ∧
    (reconnect ok cid c m).events.countP isRequestPeer = c.max_retries ∧
    (reconnect ok cid c m).success = false := by
  obtain ⟨k, hk⟩ : ∃ k, c.max_retries = k + 1 := by
    rcases Nat.exists_eq_add_of_le hN with ⟨k, hk⟩
    exact ⟨k, by omega⟩
  obtain ⟨rest, hrest⟩ := reconnectLoop_events_shape ok h cid k c m
  obtain ⟨h1, h2, h3⟩ := reconnectLoop_counts ok h cid c.max_retries c m
  refine ⟨?_, ?_, ?_, ?_⟩
  · rw [reconnect]
    simp only [hk, hrest, attemptsBeforeFirstRequest, List.takeWhile,
      isRequestPeer, isAttempt]
    simp [countAttempts, isAttempt, isRequestPeer, List.takeWhile]
  · simpa [reconnect, countAttempts, isAttempt] using h1
  · simpa [reconnect, isRequestPeer] using h2
  · simpa [reconnect] using h3

theorem reconnect_retry_bound_witness :
    (∀ a, (fun (_ : PeerAddress) => false) a = false) ∧
    1 ≤ ({ host_ip := "A", host_port := 1, connected := false,
           max_retries := 3 } : ClientState).max_retries ∧
    countAttempts
        (reconnect (fun _ => false) 0
          { host_ip := "A", host_port := 1, connected := false, max_retries := 3 }
          initialManager).events = 3 :=
  ⟨fun _ => rfl, by decide,
   (reconnect_retry_bound (fun _ => false) (fun _ => rfl) 0
      { host_ip := "A", host_port := 1, connected := false, max_retries := 3 }
      initialManager (by decide)).2.1⟩

theorem reconnectLoop_exhausted_pool (ok : PeerAddress → Bool)
    (h : ∀ a, ok a = false) (cid : Nat) :
    ∀ (fuel : Nat) (c : ClientState) (m : ManagerState), m.peers = [] →
      (reconnectLoop ok cid fuel c m).success = false ∧
      (reconnectLoop ok cid fuel c m).mgr.active_clients cid = none ∧
      (reconnectLoop ok cid fuel c m).mgr.peers = [] ∧
      countAttempts (reconnectLoop ok cid fuel c m).events = fuel := by
  intro fuel
  induction fuel with
  | zero =>
      intro c m hp
      refine ⟨rfl, ?_, hp, by simp [reconnectLoop, notify_manager_failure,
        countAttempts, isAttempt]⟩
      simp [reconnectLoop, notify_manager_failure, handle_client_failure]
  | succ k ih =>
      intro c m hp
      have hconn : (connectStep ok (closeStep c)).connected = false := by
        simp [connectStep, h]
      have hgnp : get_new_peer m cid = (none, m) := by
        simp [get_new_peer, hp]
      have hr : request_new_peer cid (connectStep ok (closeStep c)) m =
          (closeStep (connectStep ok (closeStep c)),
           handle_client_failure m cid, [.requestPeer, .notifyFailure]) := by
        simp [request_new_peer, hgnp, notify_manager_failure]
      have hp2 : (handle_client_failure m cid).peers = [] := hp
      obtain ⟨ih1, ih2, ih3, ih4⟩ :=
        ih (closeStep (connectStep ok (closeStep c))) (handle_client_failure m cid) hp2
      refine ⟨?_, ?_, ?_, ?_⟩
      · simpa [reconnectLoop, hconn, hr] using ih1
      · simpa [reconnectLoop, hconn, hr] using ih2
      · simpa [reconnectLoop, hconn, hr] using ih3
      · simp only [reconnectLoop, hconn, hr]
        simp only [countAttempts, isAttempt] at ih4 ⊢
        simp [List.countP_cons, List.countP_append, isAttempt, ih4]

/-- C5 counterexample: with the pool empty, an always-failing target and
`max_retries = 2`, the policy does not stop after the (denied)
replacement request: one further connection attempt occurs after the
first replacement request, so the transition to permanent failure is
not "in one step with no further connection attempts". -/
theorem reconnect_exhaustion_one_step_cex :
    attemptsAfterFirstRequest
        (reconnect (fun _ => false) 0
          { host_ip := "A", host_port := 1, connected := false, max_retries := 2 }
          { peers := [], active_clients := fun c => if c = 0 then some ⟨"A", 1⟩ else none }).events
      = 1 ∧
    (1 : Nat) ≠ 0 :=
  ⟨by decide, by decide⟩

/-- C5 (amended): if the pool is empty when the policy requests a
replacement (every connect failing), the client's assignment-table
entry is removed and is absent afterwards, and `reconnect` returns
permanent failure (`False`); however the policy keeps retrying the same
target until its `max_retries` budget is exhausted, performing
`max_retries` connection attempts in total rather than stopping in one
step. -/
theorem reconnect_exhaustion_terminal (ok : PeerAddress → Bool)
    (h : ∀ a, ok a = false) (cid : Nat) (c : ClientState) (m : ManagerState)
    (hp : m.peers = []) :
    (reconnect ok cid c m).success = false ∧
    (reconnect ok cid c m).mgr.active_clients cid = none ∧
    countAttempts (reconnect ok cid c m).events = c.max_retries := by
  obtain ⟨h1, h2, _h3, h4⟩ :=
    reconnectLoop_exhausted_pool ok h cid c.max_retries c m hp
  exact ⟨by simpa [reconnect] using h1, by simpa [reconnect] using h2,
    by simpa [reconnect, countAttempts, isAttempt] using h4⟩

theorem reconnect_exhaustion_terminal_witness :
    (({ peers := [], active_clients := fun c =>
          if c = 0 then some ⟨"A", 1⟩ else none } : ManagerState).peers = []) ∧
    (reconnect (fun _ => false) 0
        { host_ip := "A", host_port := 1, connected := false, max_retries := 2 }
        { peers := [], active_clients := fun c =>
            if c = 0 then some ⟨"A", 1⟩ else none }).mgr.active_clients 0 = none :=
  ⟨rfl,
   (reconnect_exhaustion_terminal (fun _ => false) (fun _ => rfl) 0
      { host_ip := "A", host_port := 1, connected := false, max_retries := 2 }
      { peers := [], active_clients := fun c =>
          if c = 0 then some ⟨"A", 1⟩ else none } rfl).2.1⟩

theorem reconnectLoop_no_start (ok : PeerAddress → Bool) (cid : Nat) :
    ∀ (fuel : Nat) (c : ClientState) (m : ManagerState),
      (reconnectLoop ok cid fuel c m).events.countP isReconnectStart = 0 := by
  intro fuel
  induction fuel with
  | zero =>
      intro c m
      simp [reconnectLoop, notify_manager_failure, isReconnectStart]
  | succ k ih =>
      intro c m
      by_cases hconn : (connectStep ok (closeStep c)).connected
      · simp [reconnectLoop, hconn, isReconnectStart]
      · rcases hr : request_new_peer cid (connectStep ok (closeStep c)) m with
          ⟨c2, m2, evs⟩
        have hevs : evs = [.requestPeer] ∨ evs = [.requestPeer, .notifyFailure] := by
          have := request_new_peer_events cid (connectStep ok (closeStep c)) m
          rw [hr] at this
          exact this
        have := ih c2 m2
        rcases hevs with rfl | rfl <;>
          simp [reconnectLoop, hconn, hr, List.countP_cons, List.countP_append,
            isReconnectStart, this]

/-- C6 counterexample: with the client connected, the write failing and
a network in which the reconnection succeeds, `Client.send` still
returns `None`: the outcome (`True`) of the one reconnection it runs is
discarded, so the caller cannot distinguish a recovered send from a
permanent failure. -/
theorem send_return_value_cex :
    (send (fun _ => true) .err 0
        { host_ip := "A", host_port := 1, connected := true, max_retries := 1 }
        initialManager).ret = none ∧
    (reconnect (fun _ => true) 0
        { host_ip := "A", host_port := 1, connected := true, max_retries := 1 }
        initialManager).success = true ∧
    (none : Option Bool) ≠ some true :=
  ⟨rfl, rfl, by decide⟩

/-- C6 (amended): when `send` is called while Connected and the socket
write fails, the client invokes the Reconnection Policy exactly once,
the final client/manager states are exactly those the reconnection
produces (so the connection was torn down and rebuilt by the policy),
but the call returns `None` regardless of the reconnection's outcome —
the outcome is discarded, not returned. -/
theorem send_write_error (ok : PeerAddress → Bool) (cid : Nat)
    (c : ClientState) (m : ManagerState) (hc : c.connected = true) :
    (send ok .err cid c m).ret = none ∧
    (send ok .err cid c m).client = (reconnect ok cid c m).client ∧
    (send ok .err cid c m).mgr = (reconnect ok cid c m).mgr ∧
    (send ok .err cid c m).events.countP isReconnectStart = 1 := by
  have hstart : (reconnect ok cid c m).events.countP isReconnectStart = 1 := by
    simp [reconnect, List.countP_cons, isReconnectStart,
      reconnectLoop_no_start ok cid c.max_retries c m]
  refine ⟨?_, ?_, ?_, ?_⟩ <;>
    simp [send, hc, sendConnected, hstart]

theorem send_write_error_witness :
    (({ host_ip := "A", host_port := 1, connected := true,
        max_retries := 1 } : ClientState).connected = true) ∧
    (send (fun _ => false) .err 0
        { host_ip := "A", host_port := 1, connected := true, max_retries := 1 }
        initialManager).events.countP isReconnectStart = 1 :=
  ⟨rfl,
   (send_write_error (fun _ => false) 0
      { host_ip := "A", host_port := 1, connected := true, max_retries := 1 }
      initialManager rfl).2.2.2⟩

theorem natCharsAux_irrel (n : Nat) :
    ∀ f g, n < f → n < g → natCharsAux f n = natCharsAux g n := by
  induction n using Nat.strong_induction_on with
  | _ n ih =>
      intro f g hf hg
      obtain ⟨f1, rfl⟩ : ∃ f1, f = f1 + 1 := ⟨f - 1, by omega⟩
      obtain ⟨g1, rfl⟩ : ∃ g1, g = g1 + 1 := ⟨g - 1, by omega⟩
      rw [natCharsAux, natCharsAux]
      split
      · rfl
      · next h =>
          rw [ih (n / 10) (Nat.div_lt_self (by omega) (by omega)) f1 g1
            (by omega) (by omega)]

/-- The recursion equation of `natChars`. -/
theorem natChars_eq (n : Nat) :
    natChars n = if n < 10 then [digitChar10 n]
      else natChars (n / 10) ++ [digitChar10 (n % 10)] := by
  rw [natChars, natCharsAux]
  split
  · rfl
  · next h =>
      rw [natCharsAux_irrel (n / 10) n (n / 10 + 1)
        (Nat.div_lt_self (by omega) (by omega)) (by omega)]
      rfl

/-- C9 counterexample: the line holding the JSON string "terror" parses
and matches neither the request shape nor the response shape, yet a
Server answers it with no response at all, where the claim demands
exactly one Invalid-Request response: Python's substring test
`'error' in 'terror'` selects the response branch, whose Server side
only prints. -/
theorem invalid_line_single_response_cex :
    jsonLoads "\"terror\"" = some (Json.str "terror") ∧
    isRequestShape (Json.str "terror") = false ∧
    isResponseShape (Json.str "terror") = false ∧
    handleJsonRpc PeerType.server "\"terror\"" = [] ∧
    ([] : List Json) ≠ [invalidRequestResponse] :=
  ⟨rfl, rfl, rfl, rfl, by simp⟩

/-- C9 (amended): a received line that fails to parse as JSON, or parses
to a value that Python's duck-typed membership tests place in neither
the request branch nor the response branch (key tests on a dict,
substring tests on a string, element tests on a list, and a raising
test on any other value), makes the receiver emit exactly one
Invalid-Request error response (code -32600, id null), drop the line,
and continue processing subsequent lines — the connection is never
terminated by message content.  A parsed value of neither spec shape
can nonetheless select the response branch (the JSON string "terror",
say, whose substring test finds 'error'), and there a Server emits
nothing at all while a Client still answers with the Invalid-Request
response. -/
theorem invalid_line_single_response (pt : PeerType) (line : String)
    (h : jsonLoads line = none ∨
      ∃ v, jsonLoads line = some v ∧ matchesNeitherBranch v = true) :
    handleJsonRpc pt line = [invalidRequestResponse] ∧
    ∀ rest, processLines pt (line :: rest) =
      invalidRequestResponse :: processLines pt rest := by
  have h1 : handleJsonRpc pt line = [invalidRequestResponse] := by
    rcases h with h | ⟨v, hv, hmatch⟩
    · simp [handleJsonRpc, h]
    · simp only [handleJsonRpc, hv]
      cases v with
      | obj fields =>
          simp only [matchesNeitherBranch, Bool.and_eq_true,
            Bool.not_eq_true'] at hmatch
          simp [handleValue, hmatch.1, hmatch.2]
      | str s =>
          simp only [matchesNeitherBranch, Bool.and_eq_true,
            Bool.not_eq_true'] at hmatch
          simp [handleValue, hmatch.1, hmatch.2]
      | arr xs =>
          simp only [matchesNeitherBranch, Bool.and_eq_true,
            Bool.not_eq_true'] at hmatch
          simp [handleValue, hmatch.1, hmatch.2]
      | null => simp [handleValue]
      | bool b => simp [handleValue]
      | num n => simp [handleValue]
  exact ⟨h1, fun rest => by simp [processLines, h1]⟩

theorem invalid_line_single_response_witness :
    jsonLoads "not-json" = none ∧
    handleJsonRpc .server "not-json" = [invalidRequestResponse] ∧
    jsonLoads "true" = some (Json.bool true) ∧
    matchesNeitherBranch (Json.bool true) = true ∧
    handleJsonRpc .client "true" = [invalidRequestResponse] ∧
    processLines .server ["not-json"] =
      invalidRequestResponse :: processLines .server [] :=
  ⟨rfl, (invalid_line_single_response .server "not-json" (Or.inl rfl)).1,
   rfl, rfl,
   (invalid_line_single_response .client "true"
      (Or.inr ⟨Json.bool true, rfl, rfl⟩)).1,
   (invalid_line_single_response .server "not-json" (Or.inl rfl)).2 []⟩

/-- C7 counterexample: on a socket read error (not a clean peer close)
with the client connected, `Client.receive` returns `None` — so `None`
is not returned only for clean closes. -/
theorem receive_none_cex :
    (receive (fun _ => true) .err 0
        { host_ip := "A", host_port := 1, connected := true, max_retries := 1 }
        initialManager).ret = Except.ok none ∧
    ReadOutcome.err ≠ ReadOutcome.data "" :=
  ⟨rfl, by decide⟩

/-- C7 (amended): `Client.receive` returns `None` when the initial
reconnection fails permanently; whenever a read actually happens — the
client was connected, or it was not and the initial reconnection
succeeded — a socket read error makes it return `None` (whatever the
outcome of the reconnection that error triggers), a read that decodes
returns the decoded message, and every read that does not decode raises
the JSON decode error (which the source does not catch) instead of
returning `None`; the empty bytes of a clean peer-initiated close are
one such undecodable read, since `json.loads` rejects the empty
string. -/
theorem receive_return_behavior (ok : PeerAddress → Bool) (rd : ReadOutcome)
    (cid : Nat) (c : ClientState) (m : ManagerState) :
    ((c.connected = true ∨ (reconnect ok cid c m).success = true) →
        (rd = .err → (receive ok rd cid c m).ret = .ok none) ∧
        (∀ s v, rd = .data s → jsonLoads s = some v →
            (receive ok rd cid c m).ret = .ok (some v)) ∧
        (∀ s, rd = .data s → jsonLoads s = none →
            (receive ok rd cid c m).ret = .error ())) ∧
    jsonLoads "" = none ∧
    (c.connected = false → (reconnect ok cid c m).success = false →
        (receive ok rd cid c m).ret = .ok none) := by
  have key : ∀ (c2 : ClientState) (m2 : ManagerState) (evs : List Event),
      (rd = .err → (recvConnected ok rd cid c2 m2 evs).ret = .ok none) ∧
      (∀ s v, rd = .data s → jsonLoads s = some v →
          (recvConnected ok rd cid c2 m2 evs).ret = .ok (some v)) ∧
      (∀ s, rd = .data s → jsonLoads s = none →
          (recvConnected ok rd cid c2 m2 evs).ret = .error ()) := by
    intro c2 m2 evs
    refine ⟨?_, ?_, ?_⟩
    · intro hrd; subst hrd; simp [recvConnected]
    · intro s v hrd hjson; subst hrd; simp [recvConnected, hjson]
    · intro s hrd hjson; subst hrd; simp [recvConnected, hjson]
  refine ⟨?_, rfl, ?_⟩
  · intro hread
    by_cases hcb : c.connected = true
    · have hrw : receive ok rd cid c m = recvConnected ok rd cid c m [] := by
        simp [receive, hcb]
      rw [hrw]
      exact key c m []
    · have hfalse : c.connected = false := by
        simpa using hcb
      have hsucc : (reconnect ok cid c m).success = true := by
        rcases hread with h | h
        · rw [hfalse] at h; simp at h
        · exact h
      have hrw : receive ok rd cid c m =
          recvConnected ok rd cid (reconnect ok cid c m).client
            (reconnect ok cid c m).mgr (reconnect ok cid c m).events := by
        simp [receive, hfalse, hsucc]
      rw [hrw]
      exact key _ _ _
  · intro hfalse hrec
    simp [receive, hfalse, hrec]

theorem receive_return_behavior_witness :
    (({ host_ip := "A", host_port := 1, connected := true,
        max_retries := 1 } : ClientState).connected = true ∨
      (reconnect (fun _ => false) 0
        { host_ip := "A", host_port := 1, connected := true, max_retries := 1 }
        initialManager).success = true) ∧
    jsonLoads "not-json" = none ∧
    (receive (fun _ => false) (.data "not-json") 0
        { host_ip := "A", host_port := 1, connected := true, max_retries := 1 }
        initialManager).ret = Except.error () :=
  ⟨Or.inl rfl, rfl,
   ((receive_return_behavior (fun _ => false) (.data "not-json") 0
      { host_ip := "A", host_port := 1, connected := true, max_retries := 1 }
      initialManager).1 (Or.inl rfl)).2.2 "not-json" rfl rfl⟩

theorem hexVal_hexDig (n : Nat) (h : n < 16) : hexVal (hexDig n) = some n := by
  interval_cases n <;> rfl

theorem hexDig_ne_newline (n : Nat) : hexDig n ≠ '\n' := by
  unfold hexDig
  split <;> decide

theorem isDigitCh_digitChar10 (n : Nat) : isDigitCh (digitChar10 n) = true := by
  unfold digitChar10
  split <;> rfl

theorem dval_digitChar10 (n : Nat) (h : n < 10) : (digitChar10 n).toNat - 48 = n := by
  interval_cases n <;> rfl

theorem digitChar10_ne_newline (n : Nat) : digitChar10 n ≠ '\n' := by
  unfold digitChar10
  split <;> decide

theorem natChars_cons (n : Nat) :
    ∃ c cs, natChars n = c :: cs ∧ isDigitCh c = true := by
  induction n using Nat.strong_induction_on with
  | _ n ih =>
      rw [natChars_eq]
      split
      · exact ⟨digitChar10 n, [], rfl, isDigitCh_digitChar10 n⟩
      · obtain ⟨c, cs, hc, hdig⟩ := ih (n / 10) (Nat.div_lt_self (by omega) (by omega))
        exact ⟨c, cs ++ [digitChar10 (n % 10)], by rw [hc]; rfl, hdig⟩

theorem natChars_ne_newline (n : Nat) : ∀ c ∈ natChars n, c ≠ '\n' := by
  induction n using Nat.strong_induction_on with
  | _ n ih =>
      rw [natChars_eq]
      split
      · intro c hc
        simp only [List.mem_singleton] at hc
        exact hc ▸ digitChar10_ne_newline n
      · intro c hc
        rcases List.mem_append.mp hc with hm | hm
        · exact ih (n / 10) (Nat.div_lt_self (by omega) (by omega)) c hm
        · simp only [List.mem_singleton] at hm
          exact hm ▸ digitChar10_ne_newline (n % 10)

theorem digitsLoop_stop (acc : Nat) (rest : List Char)
    (h : headIsDigit rest = false) : digitsLoop acc rest = (acc, rest) := by
  cases rest with
  | nil => rfl
  | cons c cs =>
      simp only [headIsDigit] at h
      simp [digitsLoop, h]

theorem digitsLoop_natChars (n : Nat) :
    ∀ (acc : Nat) (rest : List Char),
      digitsLoop acc (natChars n ++ rest) =
        digitsLoop (acc * 10 ^ (natChars n).length + n) rest := by
  induction n using Nat.strong_induction_on with
  | _ n ih =>
      intro acc rest
      rw [natChars_eq]
      split
      · next h =>
          simp only [List.singleton_append, List.length_singleton]
          rw [digitsLoop]
          simp only [isDigitCh_digitChar10, if_true]
          rw [dval_digitChar10 n h]
          congr 1
          ring
      · next h =>
          rw [List.append_assoc, List.singleton_append,
            ih (n / 10) (Nat.div_lt_self (by omega) (by omega)),
            List.length_append, List.length_singleton]
          rw [digitsLoop]
          simp only [isDigitCh_digitChar10, if_true]
          rw [dval_digitChar10 (n % 10) (Nat.mod_lt n (by omega))]
          congr 1
          calc 10 * (acc * 10 ^ (natChars (n / 10)).length + n / 10) + n % 10
              = acc * (10 ^ (natChars (n / 10)).length * 10) +
                  (10 * (n / 10) + n % 10) := by ring
            _ = acc * 10 ^ ((natChars (n / 10)).length + 1) + n := by
                rw [Nat.div_add_mod, pow_succ]

theorem pNat_head (l : List Char) (h : headIsDigit l = true) :
    pNat l = some (digitsLoop 0 l) := by
  cases l with
  | nil => simp [headIsDigit] at h
  | cons c cs =>
      simp only [headIsDigit] at h
      rw [pNat, if_pos h, digitsLoop, if_pos h]
      simp

theorem pNat_natChars (n : Nat) (rest : List Char)
    (h : headIsDigit rest = false) : pNat (natChars n ++ rest) = some (n, rest) := by
  obtain ⟨c, cs, hc, hdig⟩ := natChars_cons n
  have hhead : headIsDigit (natChars n ++ rest) = true := by
    rw [hc]; simpa [headIsDigit] using hdig
  rw [pNat_head _ hhead, digitsLoop_natChars n 0 rest, digitsLoop_stop _ _ h]
  simp

theorem pUni_bmp (v : Nat) (rest : List Char) (hv : v < 65536)
    (hsur : ¬(55296 ≤ v ∧ v ≤ 57343)) :
    pUni (toHex4 v ++ rest) = some (Char.ofNat v, rest) := by
  have e1 : hexVal (hexDig (v / 4096 % 16)) = some (v / 4096 % 16) :=
    hexVal_hexDig _ (by omega)
  have e2 : hexVal (hexDig (v / 256 % 16)) = some (v / 256 % 16) :=
    hexVal_hexDig _ (by omega)
  have e3 : hexVal (hexDig (v / 16 % 16)) = some (v / 16 % 16) :=
    hexVal_hexDig _ (by omega)
  have e4 : hexVal (hexDig (v % 16)) = some (v % 16) :=
    hexVal_hexDig _ (by omega)
  have hrecon : 4096 * (v / 4096 % 16) + 256 * (v / 256 % 16) +
      16 * (v / 16 % 16) + v % 16 = v := by omega
  rw [pUni.eq_def]
  simp only [toHex4, List.cons_append, List.nil_append]
  simp only [e1, e2, e3, e4, hrecon]
  rw [if_neg (by omega), if_neg (by omega)]

theorem pUni_pair0 (hi lo : Nat) (rest : List Char)
    (hhi : 55296 ≤ hi ∧ hi ≤ 56319) (hlo : 56320 ≤ lo ∧ lo ≤ 57343) :
    pUni (toHex4 hi ++ '\\' :: 'u' :: (toHex4 lo ++ rest)) =
      some (Char.ofNat (65536 + (hi - 55296) * 1024 + (lo - 56320)), rest) := by
  have e1 : hexVal (hexDig (hi / 4096 % 16)) = some (hi / 4096 % 16) :=
    hexVal_hexDig _ (by omega)
  have e2 : hexVal (hexDig (hi / 256 % 16)) = some (hi / 256 % 16) :=
    hexVal_hexDig _ (by omega)
  have e3 : hexVal (hexDig (hi / 16 % 16)) = some (hi / 16 % 16) :=
    hexVal_hexDig _ (by omega)
  have e4 : hexVal (hexDig (hi % 16)) = some (hi % 16) :=
    hexVal_hexDig _ (by omega)
  have f1 : hexVal (hexDig (lo / 4096 % 16)) = some (lo / 4096 % 16) :=
    hexVal_hexDig _ (by omega)
  have f2 : hexVal (hexDig (lo / 256 % 16)) = some (lo / 256 % 16) :=
    hexVal_hexDig _ (by omega)
  have f3 : hexVal (hexDig (lo / 16 % 16)) = some (lo / 16 % 16) :=
    hexVal_hexDig _ (by omega)
  have f4 : hexVal (hexDig (lo % 16)) = some (lo % 16) :=
    hexVal_hexDig _ (by omega)
  have hreconHi : 4096 * (hi / 4096 % 16) + 256 * (hi / 256 % 16) +
      16 * (hi / 16 % 16) + hi % 16 = hi := by omega
  have hreconLo : 4096 * (lo / 4096 % 16) + 256 * (lo / 256 % 16) +
      16 * (lo / 16 % 16) + lo % 16 = lo := by omega
  rw [pUni.eq_def]
  simp only [toHex4, List.cons_append, List.nil_append, List.append_assoc]
  simp only [e1, e2, e3, e4, f1, f2, f3, f4, hreconHi, hreconLo]
  rw [if_pos hhi]
  simp [hlo]

theorem escChar_pStringF (c : Char) (f : Nat) (rest : List Char) :
    pStringF (f + 1) (escChar c ++ rest) =
      (pStringF f rest).map (fun p => (c :: p.1, p.2)) := by
  have hvalid : c.toNat < 55296 ∨ (57343 < c.toNat ∧ c.toNat < 1114112) := c.valid
  by_cases h1 : c = '"'
  · subst h1
    rw [show escChar '"' ++ rest = '\\' :: '"' :: rest from rfl, pStringF.eq_def]
    simp [escShorthand]
  by_cases h2 : c = '\\'
  · subst h2
    rw [show escChar '\\' ++ rest = '\\' :: '\\' :: rest from rfl, pStringF.eq_def]
    simp [escShorthand]
  by_cases h3 : c = '\n'
  · subst h3
    rw [show escChar '\n' ++ rest = '\\' :: 'n' :: rest from rfl, pStringF.eq_def]
    simp [escShorthand]
  by_cases h4 : c = '\r'
  · subst h4
    rw [show escChar '\r' ++ rest = '\\' :: 'r' :: rest from rfl, pStringF.eq_def]
    simp [escShorthand]
  by_cases h5 : c = '\t'
  · subst h5
    rw [show escChar '\t' ++ rest = '\\' :: 't' :: rest from rfl, pStringF.eq_def]
    simp [escShorthand]
  by_cases h6 : c.toNat = 8
  · have hesc : escChar c = ['\\', 'b'] := by
      unfold escChar
      rw [if_neg h1, if_neg h2, if_neg h3, if_neg h4, if_neg h5, if_pos h6]
    rw [hesc, List.cons_append, List.cons_append, List.nil_append, pStringF.eq_def]
    simp [escShorthand]
    rw [← h6, Char.ofNat_toNat]
  by_cases h7 : c.toNat = 12
  · have hesc : escChar c = ['\\', 'f'] := by
      unfold escChar
      rw [if_neg h1, if_neg h2, if_neg h3, if_neg h4, if_neg h5, if_neg h6, if_pos h7]
    rw [hesc, List.cons_append, List.cons_append, List.nil_append, pStringF.eq_def]
    simp [escShorthand]
    rw [← h7, Char.ofNat_toNat]
  by_cases h8 : c.toNat < 32
  · have hesc : escChar c = '\\' :: 'u' :: toHex4 c.toNat := by
      unfold escChar
      rw [if_neg h1, if_neg h2, if_neg h3, if_neg h4, if_neg h5, if_neg h6,
        if_neg h7, if_pos h8]
    have hpu : pUni (toHex4 c.toNat ++ rest) = some (Char.ofNat c.toNat, rest) :=
      pUni_bmp c.toNat rest (by omega) (by omega)
    rw [hesc, List.cons_append, List.cons_append, pStringF.eq_def]
    simp [hpu, Char.ofNat_toNat]
  by_cases h9 : c.toNat < 127
  · have hesc : escChar c = [c] := by
      unfold escChar
      rw [if_neg h1, if_neg h2, if_neg h3, if_neg h4, if_neg h5, if_neg h6,
        if_neg h7, if_neg h8, if_pos h9]
    rw [hesc, List.cons_append, List.nil_append, pStringF.eq_def]
    simp [h1, h2, h8]
  by_cases h10 : c.toNat < 65536
  · have hesc : escChar c = '\\' :: 'u' :: toHex4 c.toNat := by
      unfold escChar
      rw [if_neg h1, if_neg h2, if_neg h3, if_neg h4, if_neg h5, if_neg h6,
        if_neg h7, if_neg h8, if_neg h9, if_pos h10]
    have hpu : pUni (toHex4 c.toNat ++ rest) = some (Char.ofNat c.toNat, rest) :=
      pUni_bmp c.toNat rest (by omega) (by omega)
    rw [hesc, List.cons_append, List.cons_append, pStringF.eq_def]
    simp [hpu, Char.ofNat_toNat]
  · have hesc : escChar c =
        ('\\' :: 'u' :: toHex4 (55296 + (c.toNat - 65536) / 1024)) ++
        ('\\' :: 'u' :: toHex4 (56320 + (c.toNat - 65536) % 1024)) := by
      unfold escChar
      rw [if_neg h1, if_neg h2, if_neg h3, if_neg h4, if_neg h5, if_neg h6,
        if_neg h7, if_neg h8, if_neg h9, if_neg h10]
    have hpu := pUni_pair0 (55296 + (c.toNat - 65536) / 1024)
      (56320 + (c.toNat - 65536) % 1024) rest (by omega) (by omega)
    have hval : 65536 + (55296 + (c.toNat - 65536) / 1024 - 55296) * 1024 +
        (56320 + (c.toNat - 65536) % 1024 - 56320) = c.toNat := by omega
    rw [hval] at hpu
    rw [hesc]
    simp only [List.cons_append, List.append_assoc, List.nil_append]
    rw [pStringF.eq_def]
    simp [hpu, Char.ofNat_toNat]

theorem newline_ne_hexDig (n : Nat) : ¬('\n' = hexDig n) :=
  fun h => hexDig_ne_newline n h.symm

theorem escChar_shape (c : Char) :
    escChar c = ['\\', '"'] ∨ escChar c = ['\\', '\\'] ∨ escChar c = ['\\', 'n'] ∨
    escChar c = ['\\', 'r'] ∨ escChar c = ['\\', 't'] ∨ escChar c = ['\\', 'b'] ∨
    escChar c = ['\\', 'f'] ∨ (∃ v, escChar c = '\\' :: 'u' :: toHex4 v) ∨
    (escChar c = [c] ∧ 32 ≤ c.toNat) ∨
    (∃ v w, escChar c = ('\\' :: 'u' :: toHex4 v) ++ ('\\' :: 'u' :: toHex4 w)) := by
  by_cases h1 : c = '"'
  · subst h1; exact Or.inl rfl
  by_cases h2 : c = '\\'
  · subst h2; exact Or.inr (Or.inl rfl)
  by_cases h3 : c = '\n'
  · subst h3; exact Or.inr (Or.inr (Or.inl rfl))
  by_cases h4 : c = '\r'
  · subst h4; exact Or.inr (Or.inr (Or.inr (Or.inl rfl)))
  by_cases h5 : c = '\t'
  · subst h5; exact Or.inr (Or.inr (Or.inr (Or.inr (Or.inl rfl))))
  by_cases h6 : c.toNat = 8
  · refine Or.inr (Or.inr (Or.inr (Or.inr (Or.inr (Or.inl ?_)))))
    unfold escChar
    rw [if_neg h1, if_neg h2, if_neg h3, if_neg h4, if_neg h5, if_pos h6]
  by_cases h7 : c.toNat = 12
  · refine Or.inr (Or.inr (Or.inr (Or.inr (Or.inr (Or.inr (Or.inl ?_))))))
    unfold escChar
    rw [if_neg h1, if_neg h2, if_neg h3, if_neg h4, if_neg h5, if_neg h6, if_pos h7]
  by_cases h8 : c.toNat < 32
  · refine Or.inr (Or.inr (Or.inr (Or.inr (Or.inr (Or.inr (Or.inr (Or.inl
      ⟨c.toNat, ?_⟩)))))))
    unfold escChar
    rw [if_neg h1, if_neg h2, if_neg h3, if_neg h4, if_neg h5, if_neg h6,
      if_neg h7, if_pos h8]
  by_cases h9 : c.toNat < 127
  · refine Or.inr (Or.inr (Or.inr (Or.inr (Or.inr (Or.inr (Or.inr (Or.inr
      (Or.inl ⟨?_, by omega⟩))))))))
    unfold escChar
    rw [if_neg h1, if_neg h2, if_neg h3, if_neg h4, if_neg h5, if_neg h6,
      if_neg h7, if_neg h8, if_pos h9]
  by_cases h10 : c.toNat < 65536
  · refine Or.inr (Or.inr (Or.inr (Or.inr (Or.inr (Or.inr (Or.inr (Or.inl
      ⟨c.toNat, ?_⟩)))))))
    unfold escChar
    rw [if_neg h1, if_neg h2, if_neg h3, if_neg h4, if_neg h5, if_neg h6,
      if_neg h7, if_neg h8, if_neg h9, if_pos h10]
  · refine Or.inr (Or.inr (Or.inr (Or.inr (Or.inr (Or.inr (Or.inr (Or.inr
      (Or.inr ⟨55296 + (c.toNat - 65536) / 1024,
               56320 + (c.toNat - 65536) % 1024, ?_⟩))))))))
    unfold escChar
    rw [if_neg h1, if_neg h2, if_neg h3, if_neg h4, if_neg h5, if_neg h6,
      if_neg h7, if_neg h8, if_neg h9, if_neg h10]

theorem escChar_no_newline (c : Char) : '\n' ∉ escChar c := by
  rcases escChar_shape c with h | h | h | h | h | h | h | ⟨v, h⟩ | ⟨h, hge⟩ | ⟨v, w, h⟩ <;>
    rw [h]
  · decide
  · decide
  · decide
  · decide
  · decide
  · decide
  · decide
  · simp [toHex4, newline_ne_hexDig]
  · intro hm
    simp only [List.mem_singleton] at hm
    have : c.toNat = 10 := by rw [← hm]; rfl
    omega
  · simp [toHex4, newline_ne_hexDig]

theorem escChar_length_pos (c : Char) : 1 ≤ (escChar c).length := by
  rcases escChar_shape c with h | h | h | h | h | h | h | ⟨v, h⟩ | ⟨h, hge⟩ | ⟨v, w, h⟩ <;>
    simp [h, toHex4]

theorem escList_length_ge (s : List Char) : s.length ≤ (escList s).length := by
  induction s with
  | nil => simp [escList]
  | cons c cs ih =>
      rw [escList]
      rw [List.length_append, List.length_cons]
      have := escChar_length_pos c
      omega

theorem pStringF_escList (s : List Char) :
    ∀ (f : Nat) (rest : List Char),
      pStringF (s.length + f + 1) (escList s ++ '"' :: rest) = some (s, rest) := by
  induction s with
  | nil =>
      intro f rest
      rw [show escList [] ++ '"' :: rest = '"' :: rest from rfl]
      rw [show ([] : List Char).length + f + 1 = f + 1 from by simp]
      rw [pStringF.eq_def]
      simp
  | cons c cs ih =>
      intro f rest
      rw [show (c :: cs).length + f + 1 = (cs.length + f + 1) + 1 from by
        simp [List.length_cons]; omega]
      rw [escList, List.append_assoc, escChar_pStringF, ih f rest]
      rfl

theorem pString_escList (s rest : List Char) :
    pString (escList s ++ '"' :: rest) = some (s, rest) := by
  unfold pString
  have hge := escList_length_ge s
  rw [show (escList s ++ '"' :: rest).length + 1 =
      s.length + ((escList s).length - s.length + rest.length + 1) + 1 from by
    simp [List.length_append, List.length_cons]
    omega]
  exact pStringF_escList s _ rest

theorem splitLines_no_newline (l : List Char) (h : '\n' ∉ l) :
    splitLines l = ([], l) := by
  induction l with
  | nil => rfl
  | cons c cs ih =>
      have hc : ¬(c = '\n') := fun hh => h (hh ▸ List.mem_cons_self c cs)
      have hcs : '\n' ∉ cs := fun hm => h (List.mem_cons_of_mem _ hm)
      rw [splitLines, if_neg hc, ih hcs]

theorem splitLines_rest_no_newline (l : List Char) : '\n' ∉ (splitLines l).2 := by
  induction l with
  | nil => simp [splitLines]
  | cons c cs ih =>
      by_cases hc : c = '\n'
      · subst hc
        simp [splitLines, ih]
      · rw [splitLines, if_neg hc]
        rcases hspl : splitLines cs with ⟨ls, rest⟩
        have ih' : '\n' ∉ rest := by rw [hspl] at ih; exact ih
        cases ls with
        | nil =>
            simp only
            intro hm
            rcases List.mem_cons.mp hm with hh | hh
            · exact hc hh.symm
            · exact ih' hh
        | cons l0 ls' =>
            simpa using ih'

theorem splitLines_append (a b : List Char) :
    splitLines (a ++ b) =
      ((splitLines a).1 ++ (splitLines ((splitLines a).2 ++ b)).1,
       (splitLines ((splitLines a).2 ++ b)).2) := by
  induction a with
  | nil => simp [splitLines]
  | cons c cs ih =>
      rw [List.cons_append]
      by_cases hc : c = '\n'
      · subst hc
        rw [splitLines, if_pos rfl]
        conv_rhs => rw [splitLines, if_pos rfl]
        simp only
        rw [ih]
        simp [List.cons_append]
      · rw [splitLines, if_neg hc]
        conv_rhs => rw [splitLines, if_neg hc]
        rcases hspl : splitLines cs with ⟨ls, rest⟩
        have ih' := ih
        rw [hspl] at ih'
        simp only at ih'
        cases ls with
        | nil =>
            simp only
            rw [ih']
            simp only [List.nil_append]
            conv_rhs => rw [List.cons_append, splitLines, if_neg hc]
        | cons l0 ls' =>
            simp only
            rw [ih']
            simp [List.cons_append]

theorem processChunks_join (chunks : List (List Char)) :
    ∀ buf, (∀ ch ∈ chunks, ch ≠ []) → '\n' ∉ buf →
      processChunks buf chunks = splitLines (buf ++ chunks.flatten) := by
  induction chunks with
  | nil =>
      intro buf _ hbuf
      rw [processChunks]
      simp [splitLines_no_newline buf hbuf]
  | cons ch rest ih =>
      intro buf hne hbuf
      rw [processChunks, if_neg (hne ch (List.mem_cons_self ch rest))]
      rw [ih (splitLines (buf ++ ch)).2
        (fun c hc => hne c (List.mem_cons_of_mem _ hc))
        (splitLines_rest_no_newline _)]
      rw [show buf ++ (ch :: rest).flatten = (buf ++ ch) ++ rest.flatten from by
        simp]
      rw [splitLines_append (buf ++ ch) rest.flatten]

theorem escList_no_newline (s : List Char) : '\n' ∉ escList s := by
  induction s with
  | nil => simp [escList]
  | cons c cs ih =>
      rw [escList]
      intro hm
      rcases List.mem_append.mp hm with hm | hm
      · exact escChar_no_newline c hm
      · exact ih hm

theorem qstr_no_newline (s : String) : '\n' ∉ qstr s := by
  rw [qstr]
  intro hm
  rcases List.mem_cons.mp hm with hm | hm
  · exact absurd hm (by decide)
  · rcases List.mem_append.mp hm with hm | hm
    · exact escList_no_newline s.data hm
    · simp at hm

theorem intChars_no_newline (i : Int) : '\n' ∉ intChars i := by
  rw [intChars]
  split
  · intro hm
    rcases List.mem_cons.mp hm with hm | hm
    · exact absurd hm (by decide)
    · exact natChars_ne_newline _ '\n' hm rfl
  · intro hm
    exact natChars_ne_newline _ '\n' hm rfl

theorem encodeRequestLine_no_newline (r : Request) :
    '\n' ∉ encodeRequestLine r := by
  intro hm
  simp [encodeRequestLine, qstr, escList_no_newline, intChars_no_newline] at hm

theorem skipWs_cons_not_ws (c : Char) (cs : List Char)
    (h : ¬(c = ' ' ∨ c = '\t' ∨ c = '\n' ∨ c = '\r')) :
    skipWs (c :: cs) = c :: cs := by
  rw [skipWs, if_neg h]

theorem skipWs_space (X : List Char) : skipWs (' ' :: X) = skipWs X := by
  rw [skipWs]
  simp

theorem skipWs_digit (c : Char) (cs : List Char) (h : isDigitCh c = true) :
    skipWs (c :: cs) = c :: cs := by
  apply skipWs_cons_not_ws
  simp only [isDigitCh, Bool.and_eq_true, decide_eq_true_eq] at h
  intro hor
  rcases hor with rfl | rfl | rfl | rfl <;> revert h <;> decide

theorem pValue_ws (m : Nat) (X : List Char) :
    (mkPack (m + 1)).value (' ' :: X) = (mkPack (m + 1)).value X := by
  simp only [mkPack]
  rw [skipWs_space]

theorem pValue_qstr (m : Nat) (s : String) (rest : List Char) :
    (mkPack (m + 1)).value (qstr s ++ rest) = some (Json.str s, rest) := by
  simp only [mkPack]
  rw [show qstr s ++ rest = '"' :: (escList s.data ++ '"' :: rest) from by
    simp [qstr]]
  rw [skipWs_cons_not_ws '"' _ (by decide)]
  simp only [pTokenF]
  rw [pString_escList s.data rest]
  rfl

theorem pTokenF_digit (p : ParserPack) (c : Char) (r : List Char)
    (h : isDigitCh c = true) :
    pTokenF p (c :: r) =
      (pNat (c :: r)).map (fun q => (Json.num (q.1 : Int), q.2)) := by
  rw [pTokenF.eq_def]
  split
  all_goals simp_all [isDigitCh]

theorem pValue_int (m : Nat) (i : Int) (rest : List Char)
    (h : headIsDigit rest = false) :
    (mkPack (m + 1)).value (intChars i ++ rest) = some (Json.num i, rest) := by
  simp only [mkPack]
  rw [intChars]
  split
  · next hneg =>
      rw [List.cons_append, skipWs_cons_not_ws '-' _ (by decide)]
      simp only [pTokenF]
      rw [pNat_natChars _ rest h]
      have : (((-i).toNat : Int)) = -i := Int.toNat_of_nonneg (by omega)
      simp [this]
  · next hpos =>
      obtain ⟨c, cs, hc, hdig⟩ := natChars_cons i.toNat
      rw [hc, List.cons_append, skipWs_digit c _ hdig,
        pTokenF_digit _ c _ hdig, ← List.cons_append, ← hc,
        pNat_natChars _ rest h]
      have : ((i.toNat : Int)) = i := Int.toNat_of_nonneg (by omega)
      simp [this]

theorem skipWs_qstr (k : String) (A : List Char) :
    skipWs (qstr k ++ A) = qstr k ++ A := by
  rw [show qstr k ++ A = '"' :: (escList k.data ++ '"' :: A) from by simp [qstr]]
  exact skipWs_cons_not_ws '"' _ (by decide)

theorem mkPack_value (m : Nat) (X : List Char) :
    (mkPack (m + 1)).value X = pTokenF (mkPack m) (skipWs X) := rfl

theorem mkPack_fields (m : Nat) (X : List Char) :
    (mkPack (m + 1)).fields X = pFieldsF (mkPack m) X := rfl

theorem pObjF_qstr (p : ParserPack) (k : String) (A : List Char) :
    pObjF p (qstr k ++ A) =
      (pFieldsF p (qstr k ++ A)).map (fun q => (Json.obj q.1, q.2)) := by
  rw [show qstr k ++ A = '"' :: (escList k.data ++ '"' :: A) from by simp [qstr]]
  rw [pObjF.eq_def]
  split <;> simp_all

theorem pFieldsF_step (p : ParserPack) (key : String) (body : List Char) :
    pFieldsF p (qstr key ++ ':' :: body) =
      match p.value body with
      | some (v, after) => pFieldsRestF p key v (skipWs after)
      | none => none := by
  rw [show qstr key ++ ':' :: body = '"' :: (escList key.data ++ '"' :: (':' :: body))
    from by simp [qstr]]
  simp only [pFieldsF]
  rw [pString_escList key.data (':' :: body)]
  simp only
  rw [skipWs_cons_not_ws ':' _ (by decide)]
  simp only [pFieldColonF]
  rcases p.value body with _ | ⟨v, after⟩ <;> simp

theorem pValue_encodeRequestLine (r : Request) (m : Nat) (rest : List Char) :
    (mkPack (m + 5)).value (encodeRequestLine r ++ rest) =
      some (requestJson r, rest) := by
  rw [show encodeRequestLine r ++ rest =
    '\x7b' :: (qstr "jsonrpc" ++ ':' :: ' ' :: (qstr "2.0" ++ ',' :: ' ' ::
      (qstr "method" ++ ':' :: ' ' :: (qstr r.method ++ ',' :: ' ' ::
        (qstr "params" ++ ':' :: ' ' :: (qstr r.params ++ ',' :: ' ' ::
          (qstr "id" ++ ':' :: ' ' :: (intChars r.id ++ '\x7d' :: rest))))))))
    from by simp [encodeRequestLine]]
  rw [mkPack_value]
  rw [skipWs_cons_not_ws '\x7b' _ (by decide)]
  simp only [pTokenF]
  rw [skipWs_qstr]
  rw [pObjF_qstr]
  rw [pFieldsF_step]
  rw [pValue_ws (m + 3), pValue_qstr (m + 3)]
  simp only
  rw [skipWs_cons_not_ws ',' _ (by decide)]
  simp only [pFieldsRestF]
  rw [skipWs_space, skipWs_qstr, mkPack_fields]
  rw [pFieldsF_step]
  rw [pValue_ws (m + 2), pValue_qstr (m + 2)]
  simp only
  rw [skipWs_cons_not_ws ',' _ (by decide)]
  simp only [pFieldsRestF]
  rw [skipWs_space, skipWs_qstr, mkPack_fields]
  rw [pFieldsF_step]
  rw [pValue_ws (m + 1), pValue_qstr (m + 1)]
  simp only
  rw [skipWs_cons_not_ws ',' _ (by decide)]
  simp only [pFieldsRestF]
  rw [skipWs_space, skipWs_qstr, mkPack_fields]
  rw [pFieldsF_step]
  rw [pValue_ws m, pValue_int m r.id _ (by rfl)]
  simp only
  rw [skipWs_cons_not_ws '\x7d' _ (by decide)]
  simp only [pFieldsRestF]
  simp [requestJson]

theorem jsonLoads_encodeRequestLine (r : Request) :
    jsonLoads ⟨encodeRequestLine r⟩ = some (requestJson r) := by
  rw [jsonLoads]
  have hdata : (⟨encodeRequestLine r⟩ : String).data = encodeRequestLine r := rfl
  have hlen : 6 * (⟨encodeRequestLine r⟩ : String).length + 10 =
      (6 * (encodeRequestLine r).length + 5) + 5 := by
    have h0 : (⟨encodeRequestLine r⟩ : String).length =
        (encodeRequestLine r).length := rfl
    omega
  rw [hdata, hlen]
  rw [show pValue (6 * (encodeRequestLine r).length + 5 + 5) (encodeRequestLine r) =
      (mkPack (6 * (encodeRequestLine r).length + 5 + 5)).value
        (encodeRequestLine r ++ []) from by rw [pValue, List.append_nil]]
  rw [pValue_encodeRequestLine r (6 * (encodeRequestLine r).length + 5) []]
  simp [skipWs]

theorem decodeRequest_encode (r : Request) :
    decodeRequest ⟨encodeRequestLine r⟩ = some r := by
  rw [decodeRequest.eq_def, jsonLoads_encodeRequestLine]
  simp [requestJson, jget, hasKey]

theorem splitLines_line (l : List Char) (h : '\n' ∉ l) (t : List Char) :
    splitLines (l ++ '\n' :: t) = (l :: (splitLines t).1, (splitLines t).2) := by
  induction l with
  | nil =>
      rw [List.nil_append, splitLines, if_pos rfl]
  | cons c cs ih =>
      have hc : ¬(c = '\n') := fun hh => h (hh ▸ List.mem_cons_self c cs)
      have hcs : '\n' ∉ cs := fun hm => h (List.mem_cons_of_mem _ hm)
      rw [List.cons_append, splitLines, if_neg hc, ih hcs]

theorem splitLines_encoded (rs : List Request) (t : List Char) :
    splitLines ((rs.map encodeRequest).flatten ++ t) =
      (rs.map encodeRequestLine ++ (splitLines t).1, (splitLines t).2) := by
  induction rs with
  | nil => simp
  | cons r rs' ih =>
      simp only [List.map_cons, List.flatten_cons, List.append_assoc]
      rw [encodeRequest, List.append_assoc, List.singleton_append,
        splitLines_line _ (encodeRequestLine_no_newline r), ih]
      simp

set_option maxHeartbeats 2000000 in
/-- C8: framing round trip.  For every list of request messages and
every partition of the encoded byte stream (each message's JSON text
plus the `\n` delimiter, possibly followed by an incomplete trailing
fragment) into nonempty read chunks at arbitrary offsets, the
receiver's line accumulator emits exactly the complete encoded lines —
however many lines each individual chunk completes — each of which
decodes to a message equal in all fields to the original, and retains
exactly the incomplete fragment in its buffer. -/
theorem framing_roundtrip (rs : List Request) (chunks : List (List Char))
    (tailBytes : List Char)
    (hjoin : chunks.flatten = (rs.map encodeRequest).flatten ++ tailBytes)
    (hnl : '\n' ∉ tailBytes) (hne : ∀ ch ∈ chunks, ch ≠ []) :
    (processChunks [] chunks).1.map (fun l => decodeRequest ⟨l⟩) = rs.map some ∧
    (processChunks [] chunks).2 = tailBytes := by
  rw [processChunks_join chunks [] hne (by simp), List.nil_append, hjoin,
    splitLines_encoded rs tailBytes, splitLines_no_newline tailBytes hnl]
  refine ⟨?_, rfl⟩
  rw [List.append_nil, List.map_map]
  refine List.map_congr_left ?_
  intro r _
  exact decodeRequest_encode r

theorem framing_roundtrip_witness :
    (["\x7b\"jsonrpc\": \"2.0\", \"meth".data,
      "od\": \"echo\", \"params\": \"hi\", \"id\": 7\x7d\n\x7b\"js".data].flatten =
      ([{ method := "echo", params := "hi", id := 7 }].map encodeRequest).flatten ++
        "\x7b\"js".data) ∧
    (processChunks []
        ["\x7b\"jsonrpc\": \"2.0\", \"meth".data,
         "od\": \"echo\", \"params\": \"hi\", \"id\": 7\x7d\n\x7b\"js".data]).1.map
      (fun l => decodeRequest ⟨l⟩) =
      [some { method := "echo", params := "hi", id := 7 }] ∧
    (processChunks []
        ["\x7b\"jsonrpc\": \"2.0\", \"meth".data,
         "od\": \"echo\", \"params\": \"hi\", \"id\": 7\x7d\n\x7b\"js".data]).2 =
      "\x7b\"js".data := by
  have h := framing_roundtrip [{ method := "echo", params := "hi", id := 7 }]
    ["\x7b\"jsonrpc\": \"2.0\", \"meth".data,
     "od\": \"echo\", \"params\": \"hi\", \"id\": 7\x7d\n\x7b\"js".data]
    "\x7b\"js".data (by decide) (by decide) (by decide)
  exact ⟨by decide, h.1, h.2⟩
